import Mathlib

/-!
Verification development for the OCML-Photospheres pipeline
(`AzureCognitiveVisionRest.py`).  The Python functions are shallowly
embedded over `ℚ` (exact rational arithmetic standing for Python floats,
with an explicit binary64 rounding model where the float/decimal
distinction matters) and `ℝ` (for the `math.atan2`-based direction
computation).  Stateful dictionary code is embedded as explicit state
passing over association lists; fallible code returns `Option`/`Except`.
-/

set_option maxRecDepth 20000

attribute [local semireducible] Rat.add Rat.mul Rat.sub Rat.inv Rat.ofScientific

namespace Photospheres

/-! ## Basic structural numeric utilities

Fuel-based structural recursions are used instead of library functions
defined by well-founded recursion, so that every definition evaluates by
kernel reduction. -/

/-- Structural base-`b` logarithm: `natLogFuel b fuel n` counts how often
`n` can be divided by `b` before dropping below `b`. -/
def natLogFuel (b : ℕ) : ℕ → ℕ → ℕ
  | 0, _ => 0
  | fuel + 1, n => if n < b then 0 else natLogFuel b fuel (n / b) + 1

/-- `natLog b n` is `Nat.log b n` (for `2 ≤ b`), via structural recursion. -/
def natLog (b n : ℕ) : ℕ := natLogFuel b n n

/-- Structural little-endian base-10 digits. -/
def digitsFuel : ℕ → ℕ → List ℕ
  | 0, _ => []
  | fuel + 1, n => if n = 0 then [] else n % 10 :: digitsFuel fuel (n / 10)

/-- Little-endian base-10 digit list of `n` (agrees with `Nat.digits 10 n`). -/
def natDigits (n : ℕ) : List ℕ := digitsFuel n n

/-- Round a rational to the nearest integer, ties to even
(the rounding mode of both IEEE-754 binary64 and Python `decimal`). -/
def roundHalfEven (q : ℚ) : ℤ :=
  if q - (⌊q⌋ : ℚ) < 1/2 then ⌊q⌋
  else if 1/2 < q - (⌊q⌋ : ℚ) then ⌊q⌋ + 1
  else if ⌊q⌋ % 2 = 0 then ⌊q⌋ else ⌊q⌋ + 1

/-- Python `int()` applied to a nonnegative-or-negative rational:
truncation toward zero. -/
def pyTrunc (q : ℚ) : ℤ := if 0 ≤ q then ⌊q⌋ else -⌊-q⌋

/-! ## `check_degrees` (spec: `addDegrees`)

Source (`AzureCognitiveVisionRest.py`, lines 94-110):
```
sumdeg = x + y
if sumdeg > 360:
    sumdeg = sumdeg - 360
return sumdeg
```
-/

/-- `check_degrees`: adds two degree values, subtracting 360 once when the
sum strictly exceeds 360. -/
def check_degrees (x y : ℚ) : ℚ :=
  let sumdeg := x + y
  if sumdeg > 360 then sumdeg - 360 else sumdeg

/-- The spec-side notion "`z mod 360`, normalized to `[0, 360)`". -/
def degMod (z : ℚ) : ℚ := z - 360 * (⌊z / 360⌋ : ℚ)

/-! ## `check_cardinality` (spec: `cardinalLabel`)

Source lines 115-147: a 33-entry dictionary of half-open bins scanned in
insertion order; the matching bin's label is kept (last match would win),
`N0`/`N1` collapse to `N`, and the result variable is unbound (a
`NameError`/`UnboundLocalError` on return, modelled as `none`) when no bin
matches `round(value, 3)`. -/

/-- One bin of the cardinal-direction dictionary. -/
structure Bin where
  label : String
  lo : ℚ
  hi : ℚ
deriving DecidableEq

/-- Python `round(value, 3)` on the exact value: round half to even at the
third decimal. -/
def round3 (q : ℚ) : ℚ := (roundHalfEven (q * 1000) : ℚ) / 1000

/-- The `cardinalDictionary` of `check_cardinality`, in source order. -/
def cardinalDictionary : List Bin :=
  [⟨"N0", 0, 5.625⟩, ⟨"NbE", 5.625, 16.875⟩, ⟨"NNE", 16.875, 28.125⟩,
   ⟨"NEbN", 28.125, 39.375⟩, ⟨"NE", 39.375, 50.625⟩, ⟨"NEbE", 50.625, 61.875⟩,
   ⟨"ENE", 61.875, 73.125⟩, ⟨"EbN", 73.125, 84.375⟩, ⟨"E", 84.375, 95.625⟩,
   ⟨"EbS", 95.625, 106.875⟩, ⟨"ESE", 106.875, 118.125⟩, ⟨"SEbE", 118.125, 129.375⟩,
   ⟨"SE", 129.375, 140.625⟩, ⟨"SEbS", 140.625, 151.875⟩, ⟨"SSE", 151.875, 163.125⟩,
   ⟨"SbE", 163.125, 174.375⟩, ⟨"S", 174.375, 185.625⟩, ⟨"SbW", 185.625, 196.875⟩,
   ⟨"SSW", 196.875, 208.125⟩, ⟨"SWbS", 208.125, 219.375⟩, ⟨"SW", 219.375, 230.625⟩,
   ⟨"SWbW", 230.625, 241.875⟩, ⟨"WSW", 241.875, 253.125⟩, ⟨"WbS", 253.125, 264.375⟩,
   ⟨"W", 264.375, 275.625⟩, ⟨"WbN", 275.625, 286.875⟩, ⟨"WNW", 286.875, 298.125⟩,
   ⟨"NWbW", 298.125, 309.375⟩, ⟨"NW", 309.375, 320.625⟩, ⟨"NWbN", 320.625, 331.875⟩,
   ⟨"NNW", 331.875, 343.125⟩, ⟨"NbW", 343.125, 354.375⟩, ⟨"N1", 354.375, 360.000001⟩]

/-- Collapse the two wraparound half-bins to the label `N`. -/
def mapCardinalLabel (d : String) : String := if d = "N0" ∨ d = "N1" then "N" else d

/-- The scan loop of `check_cardinality`: last matching bin wins, an
unmatched scan leaves the accumulator untouched. -/
def cardFold (r : ℚ) (l : List Bin) (acc : Option String) : Option String :=
  l.foldl (fun a bin => if bin.lo ≤ r ∧ r < bin.hi then some (mapCardinalLabel bin.label) else a) acc

/-- `check_cardinality`: maps a degree value to a cardinal label, `none`
modelling the unbound-variable error when no bin matches. -/
def check_cardinality (value : ℚ) : Option String :=
  cardFold (round3 value) cardinalDictionary none

/-- The 32 compass-rose labels `check_cardinality` can produce. -/
def cardinalLabels32 : List String :=
  ["N", "NbE", "NNE", "NEbN", "NE", "NEbE", "ENE", "EbN", "E", "EbS", "ESE", "SEbE",
   "SE", "SEbS", "SSE", "SbE", "S", "SbW", "SSW", "SWbS", "SW", "SWbW", "WSW", "WbS",
   "W", "WbN", "WNW", "NWbW", "NW", "NWbN", "NNW", "NbW"]

/-- Boolean check that a bin list is a contiguous chain of intervals from
`a` to `b` (each bin starts where announced, ends where the next starts). -/
def binChain (a : ℚ) (l : List Bin) (b : ℚ) : Bool :=
  match l with
  | [] => decide (a = b)
  | bin :: rest => decide (bin.lo = a) && decide (bin.lo ≤ bin.hi) && binChain bin.hi rest b

/-- Number of bins of `l` whose half-open interval contains `r`. -/
def countMatches (r : ℚ) (l : List Bin) : ℕ :=
  l.countP (fun bin => decide (bin.lo ≤ r ∧ r < bin.hi))

/-! ## `get_dir` (spec: `directionFromVector`)

Source lines 152-169:
```
degout = math.degrees(math.atan2(easting, northing))
if degout >= 0:
    degout = 180 + degout
elif degout < 0:
    degout = - degout
return degout
```
`math.atan2(y, x)` is the standard two-argument arctangent with range
`(-pi, pi]`; signed zeros are not representable in `ℝ`, so the `x = 0`
rows follow `atan2(0.0, x)` with a positive zero. -/

/-- Two-argument arctangent, `atan2 y x`, with the C/Python semantics on
the mathematical reals. -/
noncomputable def atan2 (y x : ℝ) : ℝ :=
  if 0 < x then Real.arctan (y / x)
  else if x < 0 then
    (if 0 ≤ y then Real.arctan (y / x) + Real.pi else Real.arctan (y / x) - Real.pi)
  else
    (if 0 < y then Real.pi / 2 else if y < 0 then -(Real.pi / 2) else 0)

/-- `math.degrees`: radians to degrees. -/
noncomputable def math_degrees (r : ℝ) : ℝ := r * (180 / Real.pi)

/-- The raw angle `math.degrees(math.atan2(easting, northing))` of `get_dir`. -/
noncomputable def rawAngle (easting northing : ℝ) : ℝ := math_degrees (atan2 easting northing)

/-- `get_dir`: the direction computation from a viewing vector. -/
noncomputable def get_dir (easting northing : ℝ) : ℝ :=
  let degout := rawAngle easting northing
  if 0 ≤ degout then 180 + degout else -degout

/-! ## Digit strings

Python's `str`/`int`/`float` conversions on numbers are modelled with
explicit decimal character lists so that the enrichment stage's
stringification (line 584, `str(cmeta[key])`) and the aggregation stage's
`float(...)`/`int(...)` casts (lines 621-648) are honest string
round-trips. -/

/-- The character of a decimal digit. -/
def digitChar (d : ℕ) : Char := Char.ofNat (48 + d)

/-- The decimal digit of a character, if any. -/
def charDigit (c : Char) : Option ℕ :=
  if 48 ≤ c.toNat ∧ c.toNat ≤ 57 then some (c.toNat - 48) else none

/-- Decimal rendering of a natural number, most significant digit first. -/
def natToChars (n : ℕ) : List Char :=
  if n = 0 then ['0'] else ((natDigits n).map digitChar).reverse

/-- Decimal rendering of an integer (Python `str` on `int`). -/
def intToChars (n : ℤ) : List Char :=
  if n < 0 then '-' :: natToChars n.natAbs else natToChars n.natAbs

/-- Accumulator loop of the decimal parser (Horner evaluation, most
significant digit first). -/
def parseNatAux : List Char → ℕ → Option ℕ
  | [], acc => some acc
  | c :: rest, acc =>
    match charDigit c with
    | none => none
    | some d => parseNatAux rest (acc * 10 + d)

/-- Parse a nonempty all-digit character list (Python `int(s)` on an
unsigned numeral; anything else raises, i.e. `none`). -/
def parseNatChars (l : List Char) : Option ℕ :=
  match l with
  | [] => none
  | _ => parseNatAux l 0

/-- Python `int(s)` on a signed numeral string. -/
def parseIntChars (l : List Char) : Option ℤ :=
  match l with
  | [] => none
  | c :: rest =>
    if c = '-' then (parseNatChars rest).map (fun n => -(n : ℤ))
    else if c = '+' then (parseNatChars rest).map (fun n => (n : ℤ))
    else (parseNatChars (c :: rest)).map (fun n => (n : ℤ))

/-- Least `k ≤ 1200` such that `d * 10^k` is an integer: the number of
fractional decimal digits of `d`.  Every binary64 value has at most 1074,
so the bound is never reached for genuine float values. -/
def fracLen (d : ℚ) : Option ℕ :=
  (List.range 1201).find? (fun k => decide ((d * 10 ^ k).den = 1))

/-- Pad a little-endian digit list with high zeros up to length `k`. -/
def padDigits (k : ℕ) (l : List ℕ) : List ℕ := l ++ List.replicate (k - l.length) 0

/-- Fixed-point decimal rendering of a decimal-valued rational, in the
format Python `str` uses for floats of moderate magnitude:
optional sign, integer digits, `'.'`, fractional digits (a lone `0` when
there are none).  The fallback row is unreachable for float values. -/
def ratToChars (d : ℚ) : List Char :=
  match fracLen d with
  | none => ['0', '.', '0']
  | some k =>
    let a := |d|
    let N := (a * 10 ^ k).num.toNat
    let ip := N / 10 ^ k
    let fr := N % 10 ^ k
    let fracCs := if k = 0 then ['0'] else ((padDigits k (natDigits fr)).map digitChar).reverse
    (if d < 0 then ['-'] else []) ++ natToChars ip ++ '.' :: fracCs

/-- Parse an unsigned decimal numeral with optional fractional part. -/
def parseUFloat (l : List Char) : Option ℚ :=
  let ip := l.takeWhile (fun c => c ≠ '.')
  match l.dropWhile (fun c => c ≠ '.') with
  | [] => (parseNatChars ip).map (fun n => (n : ℚ))
  | _ :: fp => do
    let i ← parseNatChars ip
    let f ← parseNatChars fp
    pure ((i : ℚ) + (f : ℚ) / 10 ^ fp.length)

/-- Parse a signed decimal numeral (the exact rational value the string
denotes; Python `float(s)` is this followed by binary64 rounding). -/
def parseFloatChars (l : List Char) : Option ℚ :=
  match l with
  | [] => none
  | c :: rest =>
    if c = '-' then (parseUFloat rest).map (fun q => -q)
    else if c = '+' then parseUFloat rest
    else parseUFloat (c :: rest)

/-! ## Binary64 and `decimal` rounding model

`time_convert` (source lines 197-224) divides a float by `86400` in
binary floating point, converts through `Decimal(str(day))`, and then
works in Python's `decimal` default context (28 significant digits,
round half to even).  The model computes all three exactly over `ℚ`. -/

/-- Binary exponent of `a > 0`: the `e` with `2^e ≤ a < 2^(e+1)`. -/
def binExpAux (a : ℚ) : ℤ :=
  if 1 ≤ a then (natLog 2 ⌊a⌋.toNat : ℤ)
  else
    let L := natLog 2 ⌊a⁻¹⌋.toNat
    if 1 ≤ a * 2 ^ L then -(L : ℤ) else -(L : ℤ) - 1

/-- Round a positive rational to 53 significant binary digits. -/
def roundB64core (a : ℚ) : ℚ :=
  let e := binExpAux a
  (roundHalfEven (a * 2 ^ ((52 : ℤ) - e)) : ℚ) * 2 ^ (e - 52)

/-- Round a rational to the nearest IEEE-754 binary64 value (normal
range; overflow and subnormals do not occur at the magnitudes of this
pipeline). -/
def roundB64 (q : ℚ) : ℚ :=
  if q = 0 then 0 else if q < 0 then -roundB64core (-q) else roundB64core q

/-- A rational is a (normal-range) binary64 value iff rounding fixes it. -/
def isRepr (q : ℚ) : Prop := roundB64 q = q

instance (q : ℚ) : Decidable (isRepr q) := by unfold isRepr; infer_instance

/-- Decimal exponent of `a > 0`: the `e` with `10^e ≤ a < 10^(e+1)`. -/
def decExpAux (a : ℚ) : ℤ :=
  if 1 ≤ a then (natLog 10 ⌊a⌋.toNat : ℤ)
  else
    let L := natLog 10 ⌊a⁻¹⌋.toNat
    if 1 ≤ a * 10 ^ L then -(L : ℤ) else -(L : ℤ) - 1

/-- Round a rational to `p` significant decimal digits, half to even. -/
def roundSig (q : ℚ) (p : ℕ) : ℚ :=
  if q = 0 then 0
  else
    let a := |q|
    let e := decExpAux a
    let scale : ℤ := (p : ℤ) - 1 - e
    (if q < 0 then -1 else 1) * (roundHalfEven (a * 10 ^ scale) : ℚ) * 10 ^ (-scale)

/-- The decimal value denoted by Python's shortest float `repr`: the
first precision `p ≤ 17` whose correctly rounded `p`-digit decimal
round-trips to `q`; for non-float rationals (which never arise as float
values) the exact value is kept. -/
def shortestReprVal (q : ℚ) : ℚ :=
  match ((List.range 17).map (fun i => i + 1)).find?
      (fun p => decide (roundB64 (roundSig q p) = q)) with
  | some p => roundSig q p
  | none => q

/-- Python `str` of a float value. -/
def pyFloatChars (q : ℚ) : List Char := ratToChars (shortestReprVal q)

/-- Python `float(s)`: the decimal value of the string, rounded to the
nearest binary64. -/
def pyFloatOfChars (l : List Char) : Option ℚ := (parseFloatChars l).map roundB64

/-- Python's float/str round trip: `float(str(x)) == x` for every
binary64 value `x` whose shortest repr the renderer covers. -/
def PyFloat (q : ℚ) : Prop := isRepr q ∧ (fracLen (shortestReprVal q)).isSome

/-- One operation of Python's default `decimal` context: round the exact
result to 28 significant digits, half to even. -/
def decCtx (q : ℚ) : ℚ := roundSig q 28

/-- `decimal` multiplication under the default context. -/
def decMul (x y : ℚ) : ℚ := decCtx (x * y)

/-- `decimal` division under the default context. -/
def decDiv (x y : ℚ) : ℚ := decCtx (x / y)

/-- `x % 1` on a nonnegative `decimal` value (exact at these operand
sizes). -/
def decMod1 (x : ℚ) : ℚ := x - (⌊x⌋ : ℚ)

/-! ## `time_convert` (spec: `parseCaptureTimestamp`)

Source lines 197-224.  `imgname.split('_')[0]` is the prefix before the
first underscore; `datetime(...)` validates its field ranges (the
calendar day check is simplified to `1..31`). -/

/-- The result type of `datetime(...)`. -/
structure PyDateTime where
  year : ℤ
  month : ℤ
  day : ℤ
  hour : ℤ
  minute : ℤ
  second : ℤ
  microsecond : ℤ
deriving DecidableEq

/-- `time_convert`: date from the `YYMMDD` filename prefix, time of day
from a float seconds-since-midnight offset pushed through
`day = timestamp/86400` (binary64), `Decimal(str(day))`, and the decimal
pipeline of the source. -/
def time_convert (imgname : String) (timestamp : ℚ) : Option PyDateTime := do
  let namesplit := imgname.data.takeWhile (fun c => c ≠ '_')
  let yyyy ← parseNatChars ('2' :: '0' :: namesplit.take 2)
  let mo ← parseNatChars ((namesplit.drop 2).take 2)
  let dd ← parseNatChars (namesplit.drop 4)
  let day := roundB64 (timestamp / 86400)
  let dec := shortestReprVal day
  let hours := decDiv (decMul (decMod1 dec) 86400) 3600
  let minutes := decDiv (decMul (decMod1 hours) 3600) 60
  let seconds := decMul (decMod1 minutes) 60
  let msecs := decMul (decMod1 seconds) 10
  let hh := pyTrunc hours
  let mi := pyTrunc minutes
  let ss := pyTrunc seconds
  let s := pyTrunc msecs
  if 1 ≤ mo ∧ mo ≤ 12 ∧ 1 ≤ dd ∧ dd ≤ 31 ∧ 0 ≤ hh ∧ hh < 24 ∧ 0 ≤ mi ∧ mi < 60
      ∧ 0 ≤ ss ∧ ss < 60 ∧ 0 ≤ s ∧ s < 10 then
    some ⟨yyyy, mo, dd, hh, mi, ss, 100000 * s⟩
  else none

/-- The decomposition the spec states for the time of day: hour
`⌊t/3600⌋`, minute `⌊(t mod 3600)/60⌋`, second `⌊t mod 60⌋`,
microseconds `100000 * ⌊10 * (t mod 1)⌋`. -/
def specTimeOfDay (t : ℚ) : ℤ × ℤ × ℤ × ℤ :=
  (⌊t / 3600⌋, ⌊(t - 3600 * (⌊t / 3600⌋ : ℚ)) / 60⌋,
   ⌊t - 60 * (⌊t / 60⌋ : ℚ)⌋, 100000 * ⌊10 * (t - (⌊t⌋ : ℚ))⌋)

/-! ## Python exceptions -/

/-- The exception kinds the pipeline can raise. -/
inductive PyErr where
  | keyError (k : String)
  | valueError
  | typeError
  | nameError
  | httpError
deriving DecidableEq

/-- `ex.args[0]`, the message printed by the recovery boundary. -/
def PyErr.msg : PyErr → String
  | .keyError k => k
  | .valueError => "could not convert string to float"
  | .typeError => "unsupported operand type"
  | .nameError => "cardinalDir referenced before assignment"
  | .httpError => "http status error"

/-! ## Metadata dictionaries

Python `dict` values of the pipeline are strings, floats or ints; the
dictionaries preserve insertion order, updating a present key in place
and appending a fresh key at the end. -/

/-- A metadata value. -/
inductive Value where
  | s : String → Value
  | f : ℚ → Value
  | i : ℤ → Value
deriving DecidableEq

/-- An insertion-ordered string-keyed dictionary. -/
abbrev Dict := List (String × Value)

/-- Dictionary update: overwrite the (unique) occurrence of the key in
place, or append a new key at the end. -/
def dictSet : Dict → String → Value → Dict
  | [], k, v => [(k, v)]
  | kv :: rest, k, v => if kv.1 = k then (k, v) :: rest else kv :: dictSet rest k v

/-- Dictionary lookup. -/
def dictGet : Dict → String → Option Value
  | [], _ => none
  | kv :: rest, k => if kv.1 = k then some kv.2 else dictGet rest k

/-- Apply a list of key/value assignments in order. -/
def applyWrites (m : Dict) (ws : List (String × Value)) : Dict :=
  ws.foldl (fun acc kv => dictSet acc kv.1 kv.2) m

/-- `Option`-valued lookup as a Python `KeyError`-raising access. -/
def orKeyErr {α : Type} (o : Option α) (k : String) : Except PyErr α :=
  match o with
  | some a => Except.ok a
  | none => Except.error (PyErr.keyError k)

/-- Python `str` of a metadata value. -/
def pyStrVal : Value → List Char
  | .s sv => sv.data
  | .f q => pyFloatChars q
  | .i n => intToChars n

/-- The all-string dictionary persisted to the blob store
(lines 582-584: `cardinalMetaBlob[key] = str(cmeta[key])`). -/
def stringifyDict (m : Dict) : Dict :=
  m.map (fun kv => (kv.1, Value.s (String.mk (pyStrVal kv.2))))

/-- Python `float(v)`. -/
def pyFloatCast : Value → Option ℚ
  | .s sv => pyFloatOfChars sv.data
  | .f q => some q
  | .i n => some (n : ℚ)

/-- Python `int(v)` (fails on a non-integral numeral string). -/
def pyIntCast : Value → Option ℤ
  | .s sv => parseIntChars sv.data
  | .f q => some (pyTrunc q)
  | .i n => some n

/-- Rendering of a loop index, `str(i)`. -/
def natStr (n : ℕ) : String := String.mk (natToChars n)

/-- `','.join` of Python. -/
def joinComma : List String → String
  | [] => ""
  | [s] => s
  | s :: rest => s ++ "," ++ joinComma rest

/-! ## Aggregation stage: `create_geojson_from_cardinals`

Source lines 600-657.  The store holds only strings; the function casts
a fixed float-field list and a fixed int-field list back (each guarded by
a presence check), then casts the indexed category/tag/object fields in
loops bounded by the record's own counts (the count lookups themselves
are unguarded `KeyError` sites), and builds one point feature per record.
Any error aborts the whole aggregation (`none`). -/

/-- The float fields restored by the aggregation stage (line 621). -/
def fieldsFloatAgg : List String :=
  ["Direction", "Longitude", "Latitude", "Altitude", "Origin_Easting", "Origin_Northing",
   "Origin_Height", "Direction_Easting", "Direction_Northing", "Direction_Height",
   "Up_Easting", "Up_Northing", "Up_Height", "Roll", "Pitch", "Yaw", "Omega", "Phi",
   "Kappa", "Cardinal_Direction", "Caption_Confidence"]

/-- The int fields restored by the aggregation stage (line 626). -/
def fieldsIntAgg : List String :=
  ["Cardinal_Number", "Image_Width", "Image_Height", "Number_of_Categories",
   "Number_of_Tags", "Number_of_Objects"]

/-- `float(v)` producing a metadata value. -/
def floatCastV (v : Value) : Option Value := (pyFloatCast v).map Value.f

/-- `int(v)` producing a metadata value. -/
def intCastV (v : Value) : Option Value := (pyIntCast v).map Value.i

/-- Cast each present field of a fixed list (`if field in metaString:`),
failing when a cast itself fails. -/
def restoreFixed (cast : Value → Option Value) : List String → Dict → Option Dict
  | [], m => some m
  | k :: ks, m =>
    match dictGet m k with
    | none => restoreFixed cast ks m
    | some v =>
      match cast v with
      | none => none
      | some w => restoreFixed cast ks (dictSet m k w)

/-- Cast one keyed field, `KeyError`/cast failure aborting. -/
def castLoop (cast : Value → Option Value) (key : ℕ → String) : List ℕ → Dict → Option Dict
  | [], m => some m
  | i :: is, m =>
    match dictGet m (key i) with
    | none => none
    | some v =>
      match cast v with
      | none => none
      | some w => castLoop cast key is (dictSet m (key i) w)

/-- Python `v >= 1` on a stored count (strings raise `TypeError`). -/
def valGE1 : Value → Option Bool
  | .i n => some (decide (1 ≤ n))
  | .f q => some (decide (1 ≤ q))
  | .s _ => none

/-- The bound handed to `range(1, v + 1)` (must be an int). -/
def valLoopCount : Value → Option ℕ
  | .i n => some n.toNat
  | _ => none

/-- `'Category_Score_{}'.format(i)`. -/
def keyCategoryScore (i : ℕ) : String := "Category_Score_" ++ natStr i

/-- `'Tag_Confidence_{}'.format(j)`. -/
def keyTagConfidence (j : ℕ) : String := "Tag_Confidence_" ++ natStr j

/-- `'Object_{}{}'.format(k, suffix)`. -/
def keyObject (k : ℕ) (suffix : String) : String := "Object_" ++ natStr k ++ suffix

/-- Cast a single keyed field in place. -/
def castOne (cast : Value → Option Value) (k : String) (m : Dict) : Option Dict :=
  match dictGet m k with
  | none => none
  | some v => (cast v).map (dictSet m k)

/-- The ten per-object restorations of lines 639-648 (the object
longitude/latitude are overwritten with the literal `float(0.0)`). -/
def objRestoreStep (m : Dict) (k : ℕ) : Option Dict := do
  let m ← castOne floatCastV (keyObject k "_Confidence") m
  let m ← castOne floatCastV (keyObject k "_Direction") m
  let m := dictSet m (keyObject k "_Longitude") (Value.f 0)
  let m := dictSet m (keyObject k "_Latitude") (Value.f 0)
  let m ← castOne intCastV ("x" ++ natStr k) m
  let m ← castOne intCastV ("y" ++ natStr k) m
  let m ← castOne intCastV ("w" ++ natStr k) m
  let m ← castOne intCastV ("h" ++ natStr k) m
  let m ← castOne floatCastV ("Center_x" ++ natStr k) m
  let m ← castOne floatCastV ("Center_y" ++ natStr k) m
  pure m

/-- The object restoration loop. -/
def objRestoreLoop : List ℕ → Dict → Option Dict
  | [], m => some m
  | k :: ks, m =>
    match objRestoreStep m k with
    | none => none
    | some m => objRestoreLoop ks m

/-- One of the three count-bounded loops: look the count up (unguarded),
compare it with 1, and run the loop body over `range(1, n + 1)`. -/
def countLoop (countKey : String) (body : List ℕ → Dict → Option Dict) (m : Dict) :
    Option Dict := do
  let cv ← dictGet m countKey
  let b ← valGE1 cv
  if b then
    let n ← valLoopCount cv
    body ((List.range n).map (fun i => i + 1)) m
  else
    pure m

/-- The full type restoration of one stored record (lines 621-648). -/
def restoreRecord (m : Dict) : Option Dict := do
  let m ← restoreFixed floatCastV fieldsFloatAgg m
  let m ← restoreFixed intCastV fieldsIntAgg m
  let m ← countLoop "Number_of_Categories" (castLoop floatCastV keyCategoryScore) m
  let m ← countLoop "Number_of_Tags" (castLoop floatCastV keyTagConfidence) m
  let m ← countLoop "Number_of_Objects" objRestoreLoop m
  pure m

/-- One GeoJSON point feature: the `(Longitude, Latitude)` pair handed to
`geojson.Point` and the restored record as properties. -/
structure Feature where
  lon : Value
  lat : Value
  properties : Dict
deriving DecidableEq

/-- Restore one record and wrap it as a feature (lines 650-652). -/
def featureOf (m : Dict) : Option Feature := do
  let m ← restoreRecord m
  let lon ← dictGet m "Longitude"
  let lat ← dictGet m "Latitude"
  pure ⟨lon, lat, m⟩

/-- All-or-nothing ordered traversal (the loop inside the single
`try`/`except`: the first error aborts everything). -/
def mapOpt {α β : Type} (fn : α → Option β) : List α → Option (List β)
  | [] => some []
  | a :: l =>
    match fn a, mapOpt fn l with
    | some b, some bs => some (b :: bs)
    | _, _ => none

/-- `create_geojson_from_cardinals` over the stored records of the
container: a complete feature collection, or `none` when any record
fails (the `except` branch returns `None` after logging). -/
def create_geojson_from_cardinals (records : List Dict) : Option (List Feature) :=
  mapOpt featureOf records

/-! ## Enrichment stage: `process_cardinal_images`

Source lines 438-596.  One source image is cropped into the eight fixed
areas; per slice the shared metadata dictionary (note line 477-478:
`cmeta = {}` is immediately rebound by `cmeta = metaString`, so every
slice writes into the *same* dictionary) is extended with the slice
fields and the vision response, a stringified snapshot is uploaded, and
the single `try`/`except` at lines 453/593 logs any exception once and
returns. -/

/-- One detected-object bounding box of the vision response. -/
structure RRect where
  x : ℤ
  y : ℤ
  w : ℤ
  h : ℤ

/-- The (up to 4 levels deep) parent-category chain of a detected object.
The source guards `len(obj['parent']) == 0`, which an object/confidence
pair cannot exhibit, so the guard's dead branch is not represented. -/
inductive RParent where
  | mk (object : String) (confidence : ℚ) (parent : Option RParent)

/-- Parent label. -/
def RParent.object : RParent → String
  | .mk o _ _ => o

/-- Parent confidence. -/
def RParent.confidence : RParent → ℚ
  | .mk _ c _ => c

/-- Parent's parent. -/
def RParent.parent : RParent → Option RParent
  | .mk _ _ p => p

/-- One detected object of the vision response. -/
structure RObject where
  object : String
  confidence : ℚ
  rectangle : RRect
  parent : Option RParent

/-- One caption of the response's description block. -/
structure RCaption where
  text : String
  confidence : ℚ

/-- The `description` block (`captions`/`tags` keys optional). -/
structure RDescription where
  captions : Option (List RCaption)
  tags : Option (List String)

/-- The `metadata` block. -/
structure RMetaInfo where
  width : ℤ
  height : ℤ
  format : String

/-- The `imageType` block. -/
structure RImageType where
  clipArtType : ℤ
  lineDrawingType : ℤ

/-- The `color` block. -/
structure RColor where
  dominantColorForeground : String
  dominantColorBackground : String
  dominantColors : List String

/-- A parsed vision-analysis JSON response; every top-level key the code
checks with `in` is an `Option` (categories and tags are kept as ordered
key/value dictionaries because the code iterates their keys). -/
structure Response where
  description : Option RDescription
  metadata : Option RMetaInfo
  imageType : Option RImageType
  color : Option RColor
  categories : Option (List (List (String × Value)))
  tags : Option (List (List (String × Value)))
  objects : Option (List RObject)

/-- The `Dominant_Colors` write of lines 514-519 (`len > 1` joins,
`len == 1` unwraps, and the dead `is None` branch never fires on a
list, so an empty list writes nothing). -/
def colorWrites (c : RColor) : List (String × Value) :=
  [("Dominant_Color_Foreground", Value.s c.dominantColorForeground),
   ("Dominant_Color_Background", Value.s c.dominantColorBackground)]
  ++ match c.dominantColors with
     | [] => []
     | [single] => [("Dominant_Colors", Value.s single)]
     | l => [("Dominant_Colors", Value.s (joinComma l))]

/-- The indexed writes of one categories/tags entry: the code iterates the
entry's keys and capitalizes each (lines 523-526 and 530-533). -/
def kvWrites (pre : String) (idx : ℕ) (kvs : List (String × Value)) : List (String × Value) :=
  kvs.map (fun kv => (pre ++ kv.1.capitalize ++ "_" ++ natStr idx, kv.2))

/-- The nested parent-chain writes of lines 554-574 (up to 4 levels). -/
def parentWrites (pre : String) : Option RParent → List (String × Value)
  | none => []
  | some p1 =>
    (pre ++ "_Parent_1", Value.s p1.object) :: (pre ++ "_Parent_1_Confidence", Value.f p1.confidence) ::
    match p1.parent with
    | none => []
    | some p2 =>
      (pre ++ "_Parent_2", Value.s p2.object) :: (pre ++ "_Parent_2_Confidence", Value.f p2.confidence) ::
      match p2.parent with
      | none => []
      | some p3 =>
        (pre ++ "_Parent_3", Value.s p3.object) :: (pre ++ "_Parent_3_Confidence", Value.f p3.confidence) ::
        match p3.parent with
        | none => []
        | some p4 =>
          [(pre ++ "_Parent_4", Value.s p4.object), (pre ++ "_Parent_4_Confidence", Value.f p4.confidence)]

/-- The writes for one detected object (lines 539-574); `centerX` uses
Python 3 true division and the direction approximation
`22.5 + centerX * 0.045`. -/
def objectWrites (nobj : ℕ) (obj : RObject) : List (String × Value) :=
  let pre := "Object_" ++ natStr (nobj + 1)
  let centerX : ℚ := (obj.rectangle.x : ℚ) + (obj.rectangle.w : ℚ) / 2
  let centerY : ℚ := (obj.rectangle.y : ℚ) + (obj.rectangle.h : ℚ) / 2
  let centerDir : ℚ := 22.5 + centerX * 0.045
  [(pre, Value.s obj.object),
   (pre ++ "_Confidence", Value.f obj.confidence),
   (pre ++ "_Direction", Value.f centerDir),
   (pre ++ "_Longitude", Value.f 0),
   (pre ++ "_Latitude", Value.f 0),
   ("x" ++ natStr (nobj + 1), Value.i obj.rectangle.x),
   ("y" ++ natStr (nobj + 1), Value.i obj.rectangle.y),
   ("w" ++ natStr (nobj + 1), Value.i obj.rectangle.w),
   ("h" ++ natStr (nobj + 1), Value.i obj.rectangle.h),
   ("Center_x" ++ natStr (nobj + 1), Value.f centerX),
   ("Center_y" ++ natStr (nobj + 1), Value.f centerY)]
  ++ parentWrites pre obj.parent

/-- All response-derived writes of lines 500-574, in source order.
`responsejson['description']` is read unconditionally, so a response
without that key raises. -/
def responseWrites (resp : Response) : Except PyErr (List (String × Value)) :=
  match resp.description with
  | none => Except.error (PyErr.keyError "description")
  | some desc =>
    let capW := match desc.captions with
      | some (c :: _) => [("Caption", Value.s c.text), ("Caption_Confidence", Value.f c.confidence)]
      | _ => []
    let metaW := match resp.metadata with
      | some mi => [("Image_Width", Value.i mi.width), ("Image_Height", Value.i mi.height),
                    ("Image Format", Value.s mi.format)]
      | none => []
    let itW := match resp.imageType with
      | some it => [("Clip_Art_Type", Value.i it.clipArtType),
                    ("Line_Drawing_Type", Value.i it.lineDrawingType)]
      | none => []
    let colW := match resp.color with
      | some c => colorWrites c
      | none => []
    let catW := match resp.categories with
      | some cats => ("Number_of_Categories", Value.i cats.length) ::
          cats.enum.flatMap (fun p => kvWrites "Category_" (p.1 + 1) p.2)
      | none => []
    let tagW := match resp.tags with
      | some tags => ("Number_of_Tags", Value.i tags.length) ::
          tags.enum.flatMap (fun p => kvWrites "Tag_" (p.1 + 1) p.2)
      | none => []
    let descTagW := match desc.tags with
      | some ts => [("Description_Tags", Value.s (joinComma ts))]
      | none => []
    let objW := match resp.objects with
      | some objs => ("Number_of_Objects", Value.i objs.length) ::
          objs.enum.flatMap (fun p => objectWrites p.1 p.2)
      | none => []
    Except.ok (capW ++ metaW ++ itW ++ colW ++ catW ++ tagW ++ descTagW ++ objW)

/-- The key set a slice's processing writes; it depends only on the
response (the five fixed keys are literals, the rest are derived from the
response content). -/
def sliceWriteKeys (resp : Response) : List String :=
  ["Cardinal_Image_Name", "Cardinal_Image_URL", "Cardinal_Number", "Cardinal_Direction",
   "Cardinal_Direction_Label"]
  ++ match responseWrites resp with
     | Except.ok ws => ws.map Prod.fst
     | Except.error _ => []

/-- `get_object_bounds` (lines 288-311): unguarded count lookup, then the
five per-object lookups. -/
def boundsLoop : List ℕ → Dict → Except PyErr (List (Value × Value × Value × Value × Value))
  | [], _ => Except.ok []
  | i :: is, m => do
    let ob ← orKeyErr (dictGet m ("Object_" ++ natStr (i + 1))) ("Object_" ++ natStr (i + 1))
    let xv ← orKeyErr (dictGet m ("x" ++ natStr (i + 1))) ("x" ++ natStr (i + 1))
    let yv ← orKeyErr (dictGet m ("y" ++ natStr (i + 1))) ("y" ++ natStr (i + 1))
    let wv ← orKeyErr (dictGet m ("w" ++ natStr (i + 1))) ("w" ++ natStr (i + 1))
    let hv ← orKeyErr (dictGet m ("h" ++ natStr (i + 1))) ("h" ++ natStr (i + 1))
    let rest ← boundsLoop is m
    Except.ok ((ob, xv, yv, wv, hv) :: rest)

/-- `get_object_bounds`: bounds of all `Number_of_Objects` objects of a
record (a missing count key or a non-int count raises). -/
def get_object_bounds (m : Dict) : Except PyErr (List (Value × Value × Value × Value × Value)) := do
  let nv ← orKeyErr (dictGet m "Number_of_Objects") "Number_of_Objects"
  match nv with
  | Value.i n => boundsLoop (List.range n.toNat) m
  | _ => Except.error PyErr.typeError

/-- `check_degrees(check_degrees(Direction, 22.5), ncard * 45.0)`
(lines 483-484). -/
def sliceDirection (base : ℚ) (ncard : ℕ) : ℚ :=
  check_degrees (check_degrees base 22.5) ((ncard : ℚ) * 45.0)

/-- `imageName.split('.jpg')[0]` on the character list. -/
def takeBeforeJpg : List Char → List Char
  | [] => []
  | c :: rest =>
    if (".jpg".data).isPrefixOf (c :: rest) then [] else c :: takeBeforeJpg rest

/-- `'{}_{}_{}.jpg'.format(imageName.split('.jpg')[0], ncard + 1, label)`
(line 486). -/
def cardinalImgNameOf (imageName : String) (ncard : ℕ) (label : String) : String :=
  String.mk (takeBeforeJpg imageName.data) ++ "_" ++ natStr (ncard + 1) ++ "_" ++ label ++ ".jpg"

/-- A crop box `(x1, y1, x2, y2)`. -/
abbrev Area := ℕ × ℕ × ℕ × ℕ

/-- The crop areas of lines 469-473: `for i in range(0, 8000, 1000):
(i, 1550, i + 1000, 2550)`. -/
def areas : List Area := (List.range' 0 8 1000).map (fun i => (i, 1550, i + 1000, 2550))

/-- One uploaded cardinal image: generated blob name, crop box, and the
stringified metadata snapshot. -/
structure Upload where
  name : String
  box : Area
  dict : Dict
deriving DecidableEq

/-- The numeric reading of the stored `Direction` value (a string would
raise a `TypeError` in the arithmetic of line 483). -/
def dirBase : Value → Except PyErr ℚ
  | Value.f q => Except.ok q
  | Value.i n => Except.ok ((n : ℚ))
  | Value.s _ => Except.error PyErr.typeError

/-- `check_cardinality` as used at line 485: no bin matched means the
function body never assigned its result variable (`NameError`). -/
def labelOf (d : ℚ) : Except PyErr String :=
  match check_cardinality d with
  | some lab => Except.ok lab
  | none => Except.error PyErr.nameError

/-- Processing of one slice (one iteration of the loop at lines 476-591):
direction, label, blob name, the fixed and response writes into the
shared dictionary, the `get_object_bounds` read, and the stringified
upload. -/
def sliceStep (imageName blobBaseUrl containerOut : String) (resp : Except PyErr Response)
    (cmeta : Dict) (ncard : ℕ) (area : Area) : Except PyErr (Dict × Upload) := do
  let baseV ← orKeyErr (dictGet cmeta "Direction") "Direction"
  let base ← dirBase baseV
  let cardinalDir := sliceDirection base ncard
  let label ← labelOf cardinalDir
  let cardinalImgName := cardinalImgNameOf imageName ncard label
  let fixedW : List (String × Value) :=
    [("Cardinal_Image_Name", Value.s cardinalImgName),
     ("Cardinal_Image_URL", Value.s (blobBaseUrl ++ "/" ++ containerOut ++ "/" ++ cardinalImgName)),
     ("Cardinal_Number", Value.i ((ncard : ℤ) + 1)),
     ("Cardinal_Direction", Value.f cardinalDir),
     ("Cardinal_Direction_Label", Value.s label)]
  let r ← resp
  let respW ← responseWrites r
  let cmeta' := applyWrites cmeta (fixedW ++ respW)
  let _ ← get_object_bounds cmeta'
  Except.ok (cmeta', ⟨cardinalImgName, area, stringifyDict cmeta'⟩)

/-- The slice loop: the shared dictionary is threaded through all slices;
an exception aborts the remaining slices but the uploads already made
stay (no rollback). -/
def runSlices (imageName blobBaseUrl containerOut : String)
    (respOf : ℕ → Except PyErr Response) :
    Dict → ℕ → List Area → List Upload × Option PyErr
  | _, _, [] => ([], none)
  | cmeta, ncard, area :: rest =>
    match sliceStep imageName blobBaseUrl containerOut (respOf ncard) cmeta ncard area with
    | Except.error e => ([], some e)
    | Except.ok (cmeta', up) =>
      let r := runSlices imageName blobBaseUrl containerOut respOf cmeta' (ncard + 1) rest
      (up :: r.1, r.2)

/-- The 19 metadata fields parsed to float on entry (line 460). -/
def fieldsFloat19 : List String :=
  ["Direction", "Longitude", "Latitude", "Altitude", "Origin_Easting", "Origin_Northing",
   "Origin_Height", "Direction_Easting", "Direction_Northing", "Direction_Height",
   "Up_Easting", "Up_Northing", "Up_Height", "Roll", "Pitch", "Yaw", "Omega", "Phi", "Kappa"]

/-- The `metaString[field] = float(metaString[field])` loop of
lines 461-462 (unguarded lookups; a failed parse raises `ValueError`). -/
def castMetaFloats : List String → Dict → Except PyErr Dict
  | [], m => Except.ok m
  | k :: ks, m =>
    match dictGet m k with
    | none => Except.error (PyErr.keyError k)
    | some v =>
      match pyFloatCast v with
      | none => Except.error PyErr.valueError
      | some q => castMetaFloats ks (dictSet m k (Value.f q))

/-- One blob to process: its name, its stored (string) metadata, and the
vision response each slice's network call would produce. -/
structure BlobInput where
  name : String
  storedMeta : Dict
  responses : ℕ → Except PyErr Response

/-- The body of the `try` block: metadata float-parsing, then the slice
loop.  Returns the uploads made and the first exception, if any. -/
def processBody (blobBaseUrl containerOut : String) (b : BlobInput) :
    List Upload × Option PyErr :=
  match castMetaFloats fieldsFloat19 b.storedMeta with
  | Except.error e => ([], some e)
  | Except.ok cmeta => runSlices b.name blobBaseUrl containerOut b.responses cmeta 0 areas

/-- The observable outcome of `process_cardinal_images` for one blob. -/
structure ProcResult where
  uploads : List Upload
  logs : List String
deriving DecidableEq

/-- `process_cardinal_images`: the whole body inside one `try`; the
`except` prints `ex.args[0]` once and the function returns normally. -/
def process_cardinal_images (blobBaseUrl containerOut : String) (b : BlobInput) : ProcResult :=
  let r := processBody blobBaseUrl containerOut b
  { uploads := r.1
    logs := match r.2 with
            | some e => [e.msg]
            | none => [] }

/-- The caller's batch loop (`for blob in blobList: process_cardinal_images(...)`). -/
def processBatch (blobBaseUrl containerOut : String) (bs : List BlobInput) : List ProcResult :=
  bs.map (process_cardinal_images blobBaseUrl containerOut)

/-! ## Concrete sample inputs (used to evaluate the pipeline on closed
instances) -/

/-- A minimal successful response: a `description` block and an empty
object list (so `get_object_bounds` finds its count). -/
def wRespEmpty : Response :=
  { description := some ⟨none, none⟩, metadata := none, imageType := none, color := none,
    categories := none, tags := none, objects := some [] }

/-- A response detecting one object. -/
def wRespObj : Response :=
  { description := some ⟨none, none⟩, metadata := none, imageType := none, color := none,
    categories := none, tags := none,
    objects := some [⟨"car", 0.5, ⟨10, 20, 30, 40⟩, none⟩] }

/-- Slice 0 sees one object, slice 1 none, later slices fail. -/
def wRespOf (n : ℕ) : Except PyErr Response :=
  if n = 0 then Except.ok wRespObj
  else if n = 1 then Except.ok wRespEmpty
  else Except.error PyErr.httpError

/-- All slices succeed with the minimal response. -/
def wRespOfOk (_ : ℕ) : Except PyErr Response := Except.ok wRespEmpty

/-- A minimal metadata state with a zero base direction. -/
def wMeta : Dict := [("Direction", Value.f 0)]

/-- A blob whose stored metadata is empty, so the float-parsing loop
raises `KeyError('Direction')` at its first field. -/
def wBlobFail : BlobInput :=
  { name := "a.jpg", storedMeta := [], responses := fun _ => Except.error PyErr.httpError }

/-- A record whose numeric `Clip_Art_Type` field is outside every
restoration list. -/
def wRecClip : Dict :=
  [("Number_of_Categories", Value.i 0), ("Number_of_Tags", Value.i 0),
   ("Number_of_Objects", Value.i 0), ("Clip_Art_Type", Value.i 0)]

/-- A record exercising the fixed float list and the tag loop. -/
def wRecTag : Dict :=
  [("Direction", Value.f 22.5), ("Number_of_Categories", Value.i 0),
   ("Number_of_Tags", Value.i 1), ("Tag_Confidence_1", Value.f 0.5),
   ("Number_of_Objects", Value.i 0), ("Longitude", Value.f (-117.5)),
   ("Latitude", Value.f 33.5)]

/-- The ten keys touched by the per-object restoration of index `k`. -/
def objStepKeys (k : ℕ) : List String :=
  [keyObject k "_Confidence", keyObject k "_Direction", keyObject k "_Longitude",
   keyObject k "_Latitude", "x" ++ natStr k, "y" ++ natStr k, "w" ++ natStr k,
   "h" ++ natStr k, "Center_x" ++ natStr k, "Center_y" ++ natStr k]

/-- A key that matches none of the indexed key families touched by the
count-bounded restoration loops. -/
def PlainKey (k : String) : Bool :=
  !(("Category_Score_" : String).data.isPrefixOf k.data) &&
  !(("Tag_Confidence_" : String).data.isPrefixOf k.data) &&
  !(("Object_" : String).data.isPrefixOf k.data) &&
  !(("x" : String).data.isPrefixOf k.data) &&
  !(("y" : String).data.isPrefixOf k.data) &&
  !(("w" : String).data.isPrefixOf k.data) &&
  !(("h" : String).data.isPrefixOf k.data) &&
  !(("Center_x" : String).data.isPrefixOf k.data) &&
  !(("Center_y" : String).data.isPrefixOf k.data)

/-- The shape of every key the response-derived writes can produce: a fixed
literal or one of the indexed families. -/
def RespKeyShape (s : String) : Bool :=
  decide (s ∈ ["Caption", "Caption_Confidence", "Image_Width", "Image_Height", "Image Format",
    "Clip_Art_Type", "Line_Drawing_Type", "Dominant_Color_Foreground",
    "Dominant_Color_Background", "Dominant_Colors", "Number_of_Categories",
    "Number_of_Tags", "Description_Tags", "Number_of_Objects"]) ||
  ("Category_" : String).data.isPrefixOf s.data ||
  ("Tag_" : String).data.isPrefixOf s.data ||
  ("Object_" : String).data.isPrefixOf s.data ||
  ("x" : String).data.isPrefixOf s.data ||
  ("y" : String).data.isPrefixOf s.data ||
  ("w" : String).data.isPrefixOf s.data ||
  ("h" : String).data.isPrefixOf s.data ||
  ("Center_x" : String).data.isPrefixOf s.data ||
  ("Center_y" : String).data.isPrefixOf s.data

/-! # Theorems -/

/-! ## `check_degrees` (claim C1) -/

/-- C1: the claim fails on the code: with `x = 337.5 ∈ [0, 360)` and
`y = 22.5 ≥ 0` the intermediate sum is exactly 360, and `check_degrees`
returns 360 - not `(x + y) mod 360 = 0`, and not a value in `[0, 360)`. -/
theorem c1_counterexample :
    check_degrees 337.5 22.5 = 360 ∧ degMod (337.5 + 22.5) = 0 ∧ ((360 : ℚ) ≠ 0)
    ∧ ¬ check_degrees 337.5 22.5 < 360 := by
  decide

/-- C1 (amended): for `x ∈ [0, 360)`, `y ≥ 0` with `x + y < 720` and
`x + y ≠ 360`, `check_degrees x y = (x + y) mod 360 ∈ [0, 360)`; a sum of
exactly 360 is returned as 360 (it does not wrap to 0). -/
theorem c1_amended (x y : ℚ) (hx0 : 0 ≤ x) (hx : x < 360) (hy : 0 ≤ y) (hs : x + y < 720) :
    (x + y ≠ 360 →
      check_degrees x y = degMod (x + y) ∧ 0 ≤ check_degrees x y ∧ check_degrees x y < 360)
    ∧ (x + y = 360 → check_degrees x y = 360) := by
  unfold check_degrees degMod
  by_cases h : x + y > 360
  · have hfl : ⌊(x + y) / 360⌋ = 1 := by
      rw [Int.floor_eq_iff]
      constructor
      · push_cast
        rw [le_div_iff₀ (by norm_num)]
        linarith
      · push_cast
        rw [div_lt_iff₀ (by norm_num)]
        linarith
    constructor
    · intro _
      simp only [if_pos h, hfl]
      norm_num
      constructor <;> linarith
    · intro he
      rw [he] at h
      exact absurd h (by norm_num)
  · push_neg at h
    constructor
    · intro hne
      have hlt : x + y < 360 := lt_of_le_of_ne h hne
      have hfl : ⌊(x + y) / 360⌋ = 0 := by
        rw [Int.floor_eq_iff]
        constructor
        · push_cast
          positivity
        · push_cast
          rw [div_lt_iff₀ (by norm_num)]
          linarith
      simp only [if_neg (by linarith : ¬ x + y > 360), hfl]
      norm_num
      constructor <;> linarith
    · intro he
      simp only [if_neg (by linarith : ¬ x + y > 360), he]
      norm_num

/-- C1 witness: the amended claim at `x = 350`, `y = 20`. -/
theorem c1_amended_witness :
    check_degrees 350 20 = degMod (350 + 20) ∧ 0 ≤ check_degrees 350 20
    ∧ check_degrees 350 20 < 360 :=
  (c1_amended 350 20 (by norm_num) (by norm_num) (by norm_num) (by norm_num)).1 (by norm_num)

/-! ## `time_convert` (claim C9) -/

/-- C9: at the failing input `t = 3600` (with any well-formed `YYMMDD`
prefix) the code produces `00:59:59.900000` - the binary float division
`timestamp / 86400` rounds `1/24` down before the decimal pipeline runs -
while the claimed exact decomposition of 3600 seconds is `01:00:00.0`. -/
theorem c9_time_convert_drift :
    time_convert "000101_0.jpg" 3600 = some ⟨2000, 1, 1, 0, 59, 59, 900000⟩
    ∧ specTimeOfDay 3600 = (1, 0, 0, 0) := by
  constructor
  · decide
  · decide

/-! ### round3 bounds -/

theorem roundHalfEven_bounds (q : ℚ) : ⌊q⌋ ≤ roundHalfEven q ∧ roundHalfEven q ≤ ⌊q⌋ + 1 := by
  unfold roundHalfEven
  split_ifs <;> omega

theorem round3_bounds (v : ℚ) (h0 : 0 ≤ v) (h1 : v ≤ 360) :
    0 ≤ round3 v ∧ round3 v < 360.000001 := by
  have hb := roundHalfEven_bounds (v * 1000)
  have hlow : (0 : ℤ) ≤ ⌊v * 1000⌋ := Int.floor_nonneg.mpr (by positivity)
  rcases lt_or_eq_of_le h1 with hlt | heq
  · have hup : ⌊v * 1000⌋ < 360000 := Int.floor_lt.mpr (by push_cast; linarith)
    have h2 : (roundHalfEven (v * 1000) : ℤ) ≤ 360000 := by omega
    have h3 : (0 : ℤ) ≤ roundHalfEven (v * 1000) := by omega
    unfold round3
    constructor
    · positivity
    · rw [div_lt_iff₀ (by norm_num)]
      calc (roundHalfEven (v * 1000) : ℚ) ≤ 360000 := by exact_mod_cast h2
        _ < 360.000001 * 1000 := by norm_num
  · subst heq
    exact ⟨by decide, by decide⟩

/-! ### bin chain lemmas -/

theorem binChain_cons {a b : ℚ} {bin : Bin} {rest : List Bin}
    (h : binChain a (bin :: rest) b = true) :
    bin.lo = a ∧ bin.lo ≤ bin.hi ∧ binChain bin.hi rest b = true := by
  simp only [binChain, Bool.and_eq_true, decide_eq_true_eq] at h
  exact ⟨h.1.1, h.1.2, h.2⟩

theorem binChain_le : ∀ (l : List Bin) (a b : ℚ), binChain a l b = true → a ≤ b := by
  intro l
  induction l with
  | nil => intro a b h; simp only [binChain, decide_eq_true_eq] at h; exact le_of_eq h
  | cons bin rest ih =>
    intro a b h
    obtain ⟨hlo, hle, hch⟩ := binChain_cons h
    calc a = bin.lo := hlo.symm
      _ ≤ bin.hi := hle
      _ ≤ b := ih bin.hi b hch

theorem binChain_lo_ge : ∀ (l : List Bin) (a b : ℚ), binChain a l b = true →
    ∀ bin ∈ l, a ≤ bin.lo := by
  intro l
  induction l with
  | nil => intro a b _ bin hmem; exact absurd hmem (List.not_mem_nil bin)
  | cons bin rest ih =>
    intro a b h bin' hmem
    obtain ⟨hlo, hle, hch⟩ := binChain_cons h
    rcases List.mem_cons.mp hmem with he | hm
    · rw [he, hlo]
    · calc a = bin.lo := hlo.symm
        _ ≤ bin.hi := hle
        _ ≤ bin'.lo := ih bin.hi b hch bin' hm

theorem binChain_count (r : ℚ) : ∀ (l : List Bin) (a b : ℚ), binChain a l b = true →
    countMatches r l = if a ≤ r ∧ r < b then 1 else 0 := by
  intro l
  induction l with
  | nil =>
    intro a b h
    simp only [binChain, decide_eq_true_eq] at h
    subst h
    simp only [countMatches, List.countP_nil]
    split_ifs with hc
    · exact absurd hc.2 (not_lt_of_le hc.1)
    · rfl
  | cons bin rest ih =>
    intro a b h
    obtain ⟨hlo, hle, hch⟩ := binChain_cons h
    have hab := binChain_le rest bin.hi b hch
    have hrw : countMatches r (bin :: rest) =
        countMatches r rest + (if bin.lo ≤ r ∧ r < bin.hi then 1 else 0) := by
      simp [countMatches, List.countP_cons]
    rw [hrw, ih bin.hi b hch]
    by_cases h1 : r < bin.lo
    · rw [if_neg (fun hc : bin.hi ≤ r ∧ r < b =>
            absurd hc.1 (not_le_of_lt (lt_of_lt_of_le h1 hle))),
          if_neg (fun hc : bin.lo ≤ r ∧ r < bin.hi => absurd hc.1 (not_le_of_lt h1)),
          if_neg (fun hc : a ≤ r ∧ r < b => absurd hc.1 (not_le_of_lt (hlo ▸ h1)))]
    · push_neg at h1
      by_cases h2 : r < bin.hi
      · rw [if_neg (fun hc : bin.hi ≤ r ∧ r < b => absurd hc.1 (not_le_of_lt h2)),
            if_pos (⟨h1, h2⟩ : bin.lo ≤ r ∧ r < bin.hi),
            if_pos (⟨hlo ▸ h1, lt_of_lt_of_le h2 hab⟩ : a ≤ r ∧ r < b)]
      · push_neg at h2
        rw [if_neg (fun hc : bin.lo ≤ r ∧ r < bin.hi => absurd hc.2 (not_lt_of_le h2))]
        by_cases h3 : r < b
        · rw [if_pos (⟨h2, h3⟩ : bin.hi ≤ r ∧ r < b),
              if_pos (⟨le_trans (hlo ▸ hle) h2, h3⟩ : a ≤ r ∧ r < b)]
        · rw [if_neg (fun hc : bin.hi ≤ r ∧ r < b => absurd hc.2 h3),
              if_neg (fun hc : a ≤ r ∧ r < b => absurd hc.2 h3)]

theorem cardFold_nomatch (r : ℚ) : ∀ (l : List Bin) (acc : Option String),
    (∀ bin ∈ l, ¬ (bin.lo ≤ r ∧ r < bin.hi)) → cardFold r l acc = acc := by
  intro l
  induction l with
  | nil => intro acc _; rfl
  | cons bin rest ih =>
    intro acc h
    have hhd := h bin (List.mem_cons_self bin rest)
    simp only [cardFold, List.foldl_cons, if_neg hhd]
    exact ih acc (fun b hb => h b (List.mem_cons_of_mem bin hb))

theorem binChain_fold (r : ℚ) : ∀ (l : List Bin) (a b : ℚ), binChain a l b = true →
    a ≤ r → r < b →
    ∃ bin ∈ l, (bin.lo ≤ r ∧ r < bin.hi) ∧
      ∀ acc, cardFold r l acc = some (mapCardinalLabel bin.label) := by
  intro l
  induction l with
  | nil =>
    intro a b h har hrb
    simp only [binChain, decide_eq_true_eq] at h
    subst h
    exact absurd hrb (not_lt_of_le har)
  | cons bin rest ih =>
    intro a b h har hrb
    obtain ⟨hlo, hle, hch⟩ := binChain_cons h
    by_cases hr : r < bin.hi
    · have hm : bin.lo ≤ r ∧ r < bin.hi := ⟨hlo ▸ har, hr⟩
      refine ⟨bin, List.mem_cons_self bin rest, hm, fun acc => ?_⟩
      simp only [cardFold, List.foldl_cons, if_pos hm]
      exact cardFold_nomatch r rest _ (fun b' hb' =>
        fun hc => absurd (lt_of_lt_of_le hr (binChain_lo_ge rest bin.hi b hch b' hb')) (not_lt_of_le hc.1))
    · push_neg at hr
      obtain ⟨bin', hmem, hm', hfold⟩ := ih bin.hi b hch hr hrb
      have hnm : ¬ (bin.lo ≤ r ∧ r < bin.hi) := fun hc => absurd hc.2 (not_lt_of_le hr)
      refine ⟨bin', List.mem_cons_of_mem bin hmem, hm', fun acc => ?_⟩
      simp only [cardFold, List.foldl_cons, if_neg hnm]
      exact hfold acc

/-- C3 theorem. -/
theorem c3_cardinality_total (v : ℚ) (h0 : 0 ≤ v) (h1 : v < 360) :
    countMatches (round3 v) cardinalDictionary = 1
    ∧ (∃ lab, check_cardinality v = some lab ∧ lab ∈ cardinalLabels32)
    ∧ check_cardinality 0 = some "N" ∧ check_cardinality 359.9999 = some "N"
    ∧ check_cardinality 45 = some "NE" := by
  have hch : binChain 0 cardinalDictionary 360.000001 = true := by decide
  have hb := round3_bounds v h0 (le_of_lt h1)
  refine ⟨?_, ?_, by decide, by decide, by decide⟩
  · rw [binChain_count (round3 v) cardinalDictionary 0 360.000001 hch]
    exact if_pos ⟨hb.1, hb.2⟩
  · obtain ⟨bin, hmem, _, hfold⟩ :=
      binChain_fold (round3 v) cardinalDictionary 0 360.000001 hch hb.1 hb.2
    have hlabs : ∀ bin ∈ cardinalDictionary, mapCardinalLabel bin.label ∈ cardinalLabels32 := by
      decide
    exact ⟨mapCardinalLabel bin.label, hfold none, hlabs bin hmem⟩

/-- C3 witness. -/
theorem c3_witness :
    countMatches (round3 123.456) cardinalDictionary = 1
    ∧ (∃ lab, check_cardinality 123.456 = some lab ∧ lab ∈ cardinalLabels32)
    ∧ check_cardinality 0 = some "N" ∧ check_cardinality 359.9999 = some "N"
    ∧ check_cardinality 45 = some "NE" :=
  c3_cardinality_total 123.456 (by norm_num) (by norm_num)


/-! ### atan2 and get_dir bounds -/

theorem atan2_bounds (y x : ℝ) : -Real.pi < atan2 y x ∧ atan2 y x ≤ Real.pi := by
  have hpi := Real.pi_pos
  have hlt := Real.arctan_lt_pi_div_two (y / x)
  have hgt := Real.neg_pi_div_two_lt_arctan (y / x)
  unfold atan2
  split_ifs with h1 h2 h3 h4 h5
  · constructor <;> linarith
  · -- x < 0, 0 ≤ y
    have hyx : y / x ≤ 0 := div_nonpos_iff.mpr (Or.inl ⟨h3, le_of_lt h2⟩)
    have harc : Real.arctan (y / x) ≤ 0 := by
      have := Real.arctan_strictMono.monotone hyx
      rwa [Real.arctan_zero] at this
    constructor <;> linarith
  · -- x < 0, y < 0
    push_neg at h3
    have hyx : 0 < y / x := by
      apply div_pos_of_neg_of_neg <;> linarith
    have harc : 0 < Real.arctan (y / x) := by
      have := Real.arctan_strictMono hyx
      rwa [Real.arctan_zero] at this
    constructor <;> linarith
  · constructor <;> linarith
  · constructor <;> linarith
  · constructor <;> linarith

theorem rawAngle_bounds (e n : ℝ) : -180 < rawAngle e n ∧ rawAngle e n ≤ 180 := by
  have hpi := Real.pi_pos
  have hb := atan2_bounds e n
  have hpos : (0 : ℝ) < 180 / Real.pi := by positivity
  have hup : atan2 e n * (180 / Real.pi) ≤ Real.pi * (180 / Real.pi) :=
    mul_le_mul_of_nonneg_right hb.2 (le_of_lt hpos)
  have hlow : -Real.pi * (180 / Real.pi) < atan2 e n * (180 / Real.pi) :=
    mul_lt_mul_of_pos_right hb.1 hpos
  have he1 : Real.pi * (180 / Real.pi) = 180 := by
    field_simp
  have he2 : -Real.pi * (180 / Real.pi) = -180 := by
    rw [neg_mul, he1]
  unfold rawAngle math_degrees
  rw [he1] at hup
  rw [he2] at hlow
  exact ⟨hlow, hup⟩

theorem get_dir_range (e n : ℝ) : 0 < get_dir e n ∧ get_dir e n ≤ 360 := by
  have hb := rawAngle_bounds e n
  unfold get_dir
  dsimp only
  split_ifs with h
  · constructor <;> linarith
  · push_neg at h
    constructor <;> linarith

theorem get_dir_eval_01 : get_dir 0 1 = 180 := by
  have h2 : atan2 0 1 = 0 := by
    unfold atan2
    rw [if_pos one_pos]
    norm_num [Real.arctan_zero]
  unfold get_dir rawAngle math_degrees
  rw [h2]
  norm_num

theorem get_dir_eval_0neg1 : get_dir 0 (-1) = 360 := by
  have h2 : atan2 0 (-1) = Real.pi := by
    unfold atan2
    rw [if_neg (by norm_num), if_pos (by norm_num), if_pos (le_refl (0 : ℝ))]
    norm_num [Real.arctan_zero]
  have h3 : math_degrees Real.pi = 180 := by
    unfold math_degrees
    field_simp
  unfold get_dir rawAngle
  rw [h2, h3]
  norm_num

/-- C4 counterexample. -/
theorem c4_counterexample : get_dir 0 (-1) = 360 ∧ (360 : ℝ) ≠ 180 :=
  ⟨get_dir_eval_0neg1, by norm_num⟩

/-- C4 amended. -/
theorem c4_amended :
    (∀ e n : ℝ, get_dir e n =
      if 0 ≤ rawAngle e n then 180 + rawAngle e n else -rawAngle e n)
    ∧ get_dir 0 1 = 180 ∧ get_dir 0 (-1) = 360 :=
  ⟨fun _ _ => rfl, get_dir_eval_01, get_dir_eval_0neg1⟩

/-! ### C10 -/

theorem check_degrees_range (x y : ℚ) (hx : 0 < x) (hx' : x ≤ 360) (hy : 0 ≤ y)
    (hy' : y ≤ 360) : 0 < check_degrees x y ∧ check_degrees x y ≤ 360 := by
  unfold check_degrees
  dsimp only
  split_ifs with h
  · constructor <;> linarith
  · push_neg at h
    constructor <;> linarith

/-- C10 theorem. -/
theorem c10_direction_safety :
    (∀ e n : ℝ, 0 < get_dir e n ∧ get_dir e n ≤ 360)
    ∧ (∀ base : ℚ, 0 < base → base ≤ 360 → ∀ i : ℕ, i ≤ 7 →
        (0 < sliceDirection base i ∧ sliceDirection base i ≤ 360)
        ∧ countMatches (round3 (sliceDirection base i)) cardinalDictionary = 1
        ∧ ∃ lab, check_cardinality (sliceDirection base i) = some lab) := by
  constructor
  · exact get_dir_range
  · intro base hb0 hb1 i hi
    have hi45 : ((i : ℚ)) * 45 ≤ 360 := by
      have : ((i : ℚ)) ≤ 7 := by exact_mod_cast hi
      linarith
    have h1 := check_degrees_range base 22.5 hb0 hb1 (by norm_num) (by norm_num)
    have h2 := check_degrees_range (check_degrees base 22.5) ((i : ℚ) * 45) h1.1 h1.2
      (by positivity) hi45
    have hsd : sliceDirection base i = check_degrees (check_degrees base 22.5) ((i : ℚ) * 45) := by
      norm_num [sliceDirection]
    rw [hsd]
    have hrb := round3_bounds _ (le_of_lt h2.1) h2.2
    have hch : binChain 0 cardinalDictionary 360.000001 = true := by decide
    refine ⟨h2, ?_, ?_⟩
    · rw [binChain_count _ cardinalDictionary 0 360.000001 hch]
      exact if_pos ⟨hrb.1, hrb.2⟩
    · obtain ⟨bin, _, _, hfold⟩ :=
        binChain_fold (round3 (check_degrees (check_degrees base 22.5) ((i : ℚ) * 45)))
          cardinalDictionary 0 360.000001 hch hrb.1 hrb.2
      exact ⟨mapCardinalLabel bin.label, hfold none⟩

/-- C10 witness. -/
theorem c10_witness :
    (0 < sliceDirection 295 3 ∧ sliceDirection 295 3 ≤ 360)
    ∧ countMatches (round3 (sliceDirection 295 3)) cardinalDictionary = 1
    ∧ ∃ lab, check_cardinality (sliceDirection 295 3) = some lab :=
  c10_direction_safety.2 295 (by norm_num) (by norm_num) 3 (by norm_num)


/-! ### digit rendering and parsing round trips -/

theorem digitsFuel_eq : ∀ (fuel n : ℕ), n ≤ fuel → digitsFuel fuel n = Nat.digits 10 n := by
  intro fuel
  induction fuel with
  | zero =>
    intro n h
    interval_cases n
    simp [digitsFuel]
  | succ f ih =>
    intro n h
    by_cases hn : n = 0
    · subst hn; simp [digitsFuel]
    · rw [digitsFuel, if_neg hn, Nat.digits_def' (by norm_num : (1:ℕ) < 10) (Nat.pos_of_ne_zero hn),
        ih (n / 10) ?_]
      have := Nat.div_lt_self (Nat.pos_of_ne_zero hn) (by norm_num : (1:ℕ) < 10)
      omega

theorem natDigits_eq (n : ℕ) : natDigits n = Nat.digits 10 n := digitsFuel_eq n n le_rfl

theorem natDigits_lt (n : ℕ) : ∀ d ∈ natDigits n, d < 10 := by
  rw [natDigits_eq]
  exact fun d hd => Nat.digits_lt_base (by norm_num) hd

theorem natDigits_len_le (m k : ℕ) (h : m < 10 ^ k) : (natDigits m).length ≤ k := by
  rw [natDigits_eq]
  rcases Nat.eq_zero_or_pos m with rfl | hm
  · simp
  · rw [Nat.digits_len 10 m (by norm_num) (Nat.pos_iff_ne_zero.mp hm)]
    have := Nat.log_lt_of_lt_pow (Nat.pos_iff_ne_zero.mp hm) h
    omega

theorem charDigit_digitChar (d : ℕ) (h : d < 10) : charDigit (digitChar d) = some d := by
  interval_cases d <;> rfl

theorem charDigit_ne (c : Char) (h : (charDigit c).isSome) :
    c ≠ '.' ∧ c ≠ '-' ∧ c ≠ '+' := by
  refine ⟨?_, ?_, ?_⟩ <;> rintro rfl <;> simp [charDigit] at h

theorem natToChars_ne_nil (n : ℕ) : natToChars n ≠ [] := by
  unfold natToChars
  split_ifs with h
  · simp
  · simp only [ne_eq, List.reverse_eq_nil_iff, List.map_eq_nil]
    rw [natDigits_eq]
    exact Nat.digits_ne_nil_iff_ne_zero.mpr h

theorem natToChars_all_digit (n : ℕ) : ∀ c ∈ natToChars n, (charDigit c).isSome := by
  unfold natToChars
  split_ifs with h
  · intro c hc
    simp at hc
    subst hc
    decide
  · intro c hc
    rw [List.mem_reverse, List.mem_map] at hc
    obtain ⟨d, hd, rfl⟩ := hc
    rw [charDigit_digitChar d (natDigits_lt n d hd)]
    rfl

theorem parseNatAux_append : ∀ (l1 l2 : List Char) (acc : ℕ),
    parseNatAux (l1 ++ l2) acc =
      match parseNatAux l1 acc with
      | some a => parseNatAux l2 a
      | none => none := by
  intro l1
  induction l1 with
  | nil => intro l2 acc; rfl
  | cons c rest ih =>
    intro l2 acc
    rw [List.cons_append]
    cases hc : charDigit c with
    | none => simp [parseNatAux, hc]
    | some d => simp [parseNatAux, hc, ih]

theorem parseNatAux_digits : ∀ (ds : List ℕ) (acc : ℕ), (∀ d ∈ ds, d < 10) →
    parseNatAux ((ds.map digitChar).reverse) acc =
      some (acc * 10 ^ ds.length + Nat.ofDigits 10 ds) := by
  intro ds
  induction ds with
  | nil => intro acc _; simp [parseNatAux, Nat.ofDigits]
  | cons d rest ih =>
    intro acc h
    have hd : d < 10 := h d (List.mem_cons_self d rest)
    rw [List.map_cons, List.reverse_cons, parseNatAux_append,
      ih acc (fun x hx => h x (List.mem_cons_of_mem d hx))]
    show parseNatAux [digitChar d] (acc * 10 ^ rest.length + Nat.ofDigits 10 rest) = _
    unfold parseNatAux
    rw [charDigit_digitChar d hd]
    show some ((acc * 10 ^ rest.length + Nat.ofDigits 10 rest) * 10 + d) = _
    rw [Nat.ofDigits_cons]
    simp only [List.length_cons, pow_succ]
    push_cast
    ring_nf

theorem parseNatChars_ne_nil (l : List Char) (h : l ≠ []) :
    parseNatChars l = parseNatAux l 0 := by
  cases l with
  | nil => exact absurd rfl h
  | cons c rest => rfl

theorem parseNat_natToChars (n : ℕ) : parseNatChars (natToChars n) = some n := by
  by_cases h : n = 0
  · subst h; decide
  · rw [parseNatChars_ne_nil _ (natToChars_ne_nil n)]
    unfold natToChars
    rw [if_neg h, parseNatAux_digits (natDigits n) 0 (natDigits_lt n)]
    rw [natDigits_eq, Nat.ofDigits_digits]
    simp

theorem parseIntChars_cons (c : Char) (rest : List Char) :
    parseIntChars (c :: rest) =
      if c = '-' then (parseNatChars rest).map (fun n => -(n : ℤ))
      else if c = '+' then (parseNatChars rest).map (fun n => (n : ℤ))
      else (parseNatChars (c :: rest)).map (fun n => (n : ℤ)) := rfl

theorem parseInt_intToChars (n : ℤ) : parseIntChars (intToChars n) = some n := by
  by_cases h : n < 0
  · unfold intToChars
    rw [if_pos h]
    show parseIntChars ('-' :: natToChars n.natAbs) = some n
    rw [parseIntChars_cons, if_pos rfl, parseNat_natToChars]
    have : (n.natAbs : ℤ) = -n := by omega
    simp [this]
  · unfold intToChars
    rw [if_neg h]
    obtain ⟨c, cs, hcons⟩ := List.exists_cons_of_ne_nil (natToChars_ne_nil n.natAbs)
    have hdig : (charDigit c).isSome := by
      apply natToChars_all_digit
      rw [hcons]
      exact List.mem_cons_self c cs
    obtain ⟨_, hne1, hne2⟩ := charDigit_ne c hdig
    rw [hcons, parseIntChars_cons, if_neg hne1, if_neg hne2, ← hcons, parseNat_natToChars]
    have : ((n.natAbs : ℤ)) = n := by omega
    simp [this]

/-! ### float string round trip -/

theorem ofDigits_replicate_zero (b z : ℕ) : Nat.ofDigits b (List.replicate z 0) = 0 := by
  induction z with
  | zero => rfl
  | succ n ih => simp [List.replicate_succ, Nat.ofDigits_cons, ih]

theorem takeWhile_append_cons (p : Char → Bool) :
    ∀ (a : List Char) (x : Char) (b : List Char), (∀ c ∈ a, p c = true) → p x = false →
    (a ++ x :: b).takeWhile p = a ∧ (a ++ x :: b).dropWhile p = x :: b := by
  intro a
  induction a with
  | nil =>
    intro x b _ hx
    simp [List.takeWhile_cons, List.dropWhile_cons, hx]
  | cons c rest ih =>
    intro x b ha hx
    have hc : p c = true := ha c (List.mem_cons_self c rest)
    have := ih x b (fun y hy => ha y (List.mem_cons_of_mem c hy)) hx
    simp [List.takeWhile_cons, List.dropWhile_cons, hc, this.1, this.2]

theorem fracLen_den (d : ℚ) (k : ℕ) (hk : fracLen d = some k) : (d * 10 ^ k).den = 1 := by
  have := List.find?_some hk
  simpa using this

theorem parseFloatChars_cons (c : Char) (rest : List Char) :
    parseFloatChars (c :: rest) =
      if c = '-' then (parseUFloat rest).map (fun q => -q)
      else if c = '+' then parseUFloat rest
      else parseUFloat (c :: rest) := rfl

theorem parseUFloat_split (ipcs : List Char) (fpcs : List Char) (i f : ℕ)
    (hap : ∀ c ∈ ipcs, (charDigit c).isSome)
    (hip : parseNatChars ipcs = some i) (hfp : parseNatChars fpcs = some f) :
    parseUFloat (ipcs ++ '.' :: fpcs) = some ((i : ℚ) + (f : ℚ) / 10 ^ fpcs.length) := by
  have hsplit := takeWhile_append_cons (fun c => c ≠ '.') ipcs '.' fpcs
    (fun c hc => by
      have := (charDigit_ne c (hap c hc)).1
      simp [this])
    (by simp)
  unfold parseUFloat
  rw [hsplit.1, hsplit.2]
  simp [hip, hfp]

theorem parseFloat_ratToChars (d : ℚ) (k : ℕ) (hk : fracLen d = some k) :
    parseFloatChars (ratToChars d) = some d := by
  have hden := fracLen_den d k hk
  have hq : (((d * 10 ^ k).num : ℤ) : ℚ) = d * 10 ^ k := (Rat.den_eq_one_iff _).mp hden
  set a := |d| with ha
  set N := (a * 10 ^ k).num.toNat with hN
  have hpow : (0 : ℚ) < 10 ^ k := by positivity
  have habs : a * 10 ^ k = ((|((d * 10 ^ k).num)| : ℤ) : ℚ) := by
    calc a * 10 ^ k = |d| * |10 ^ k| := by rw [ha, abs_of_nonneg (le_of_lt hpow)]
      _ = |d * 10 ^ k| := (abs_mul d _).symm
      _ = |(((d * 10 ^ k).num : ℤ) : ℚ)| := by rw [hq]
      _ = ((|(d * 10 ^ k).num| : ℤ) : ℚ) := Int.cast_abs.symm
  have hNeq : ((N : ℤ)) = |((d * 10 ^ k).num)| := by
    have h1 : (a * 10 ^ k).num = |((d * 10 ^ k).num)| := by
      rw [habs, Rat.num_intCast]
    rw [hN, h1]
    exact Int.toNat_of_nonneg (abs_nonneg _)
  have hNq : (N : ℚ) = a * 10 ^ k := by
    rw [habs]
    exact_mod_cast congrArg (fun z : ℤ => (z : ℚ)) hNeq
  set ip := N / 10 ^ k with hip
  set fr := N % 10 ^ k with hfr
  have hrecon : ip * 10 ^ k + fr = N := by
    rw [hip, hfr, Nat.mul_comm (N / 10 ^ k) (10 ^ k)]
    exact Nat.div_add_mod N (10 ^ k)
  have hfrlt : fr < 10 ^ k := Nat.mod_lt _ (pow_pos (by norm_num) k)
  have haval : a = (ip : ℚ) + (fr : ℚ) / 10 ^ k := by
    have h10 : ((10 : ℚ) ^ k) ≠ 0 := ne_of_gt hpow
    field_simp
    rw [← hNq]
    exact_mod_cast congrArg (fun z : ℕ => (z : ℚ)) hrecon.symm
  -- the fractional character list parses to fr with length k (or to 0 for k = 0)
  have hcore : parseUFloat (natToChars ip ++ '.' ::
      (if k = 0 then ['0'] else ((padDigits k (natDigits fr)).map digitChar).reverse)) = some a := by
    by_cases hk0 : k = 0
    · subst hk0
      rw [if_pos rfl]
      rw [parseUFloat_split (natToChars ip) ['0'] ip 0 (natToChars_all_digit ip)
        (parseNat_natToChars ip) (by decide)]
      have : fr = 0 := by omega
      rw [haval, this]
      norm_num
    · rw [if_neg hk0]
      have hall : ∀ x ∈ padDigits k (natDigits fr), x < 10 := by
        intro x hx
        rcases List.mem_append.mp hx with h1 | h2
        · exact natDigits_lt fr x h1
        · have := List.eq_of_mem_replicate h2
          omega
      have hlen : (padDigits k (natDigits fr)).length = k := by
        unfold padDigits
        rw [List.length_append, List.length_replicate]
        have := natDigits_len_le fr k hfrlt
        omega
      have hof : Nat.ofDigits 10 (padDigits k (natDigits fr)) = fr := by
        unfold padDigits
        rw [Nat.ofDigits_append, natDigits_eq, Nat.ofDigits_digits, ofDigits_replicate_zero]
        ring
      have hne : ((padDigits k (natDigits fr)).map digitChar).reverse ≠ [] := by
        simp only [ne_eq, List.reverse_eq_nil_iff, List.map_eq_nil_iff]
        intro hnil
        rw [hnil] at hlen
        exact hk0 hlen.symm
      have hparse : parseNatChars (((padDigits k (natDigits fr)).map digitChar).reverse)
          = some fr := by
        rw [parseNatChars_ne_nil _ hne, parseNatAux_digits _ 0 hall, hof]
        simp
      rw [parseUFloat_split (natToChars ip) _ ip fr (natToChars_all_digit ip)
        (parseNat_natToChars ip) hparse]
      rw [List.length_reverse, List.length_map, hlen, haval]
  -- assemble with the sign
  unfold ratToChars
  rw [hk]
  by_cases hneg : d < 0
  · rw [if_pos hneg]
    show parseFloatChars ('-' :: (natToChars ip ++ '.' :: _)) = some d
    rw [parseFloatChars_cons, if_pos rfl, hcore]
    show some (-a) = some d
    rw [ha, abs_of_neg hneg, neg_neg]
  · rw [if_neg hneg]
    obtain ⟨c, cs, hcons⟩ := List.exists_cons_of_ne_nil (natToChars_ne_nil ip)
    have hdig : (charDigit c).isSome := by
      apply natToChars_all_digit
      rw [hcons]
      exact List.mem_cons_self c cs
    obtain ⟨_, hne1, hne2⟩ := charDigit_ne c hdig
    show parseFloatChars ((natToChars ip ++ '.' :: _) : List Char) = some d
    rw [hcons, List.cons_append, parseFloatChars_cons, if_neg hne1, if_neg hne2,
      ← List.cons_append, ← hcons, hcore]
    rw [ha, abs_of_nonneg (not_lt.mp hneg)]

theorem shortestReprVal_roundtrip (q : ℚ) (h : isRepr q) :
    roundB64 (shortestReprVal q) = q := by
  unfold shortestReprVal
  cases hf : ((List.range 17).map (fun i => i + 1)).find?
      (fun p => decide (roundB64 (roundSig q p) = q)) with
  | none => exact h
  | some p =>
    have := List.find?_some hf
    simpa using this

theorem pyFloat_roundtrip (q : ℚ) (h : PyFloat q) :
    pyFloatOfChars (pyFloatChars q) = some q := by
  obtain ⟨h1, h2⟩ := h
  obtain ⟨k, hk⟩ := Option.isSome_iff_exists.mp h2
  unfold pyFloatOfChars pyFloatChars
  rw [parseFloat_ratToChars _ k hk]
  show some (roundB64 (shortestReprVal q)) = some q
  rw [shortestReprVal_roundtrip q h1]


/-! ### dictionary lemmas -/

theorem dictGet_dictSet_self : ∀ (m : Dict) (k : String) (v : Value),
    dictGet (dictSet m k v) k = some v := by
  intro m k v
  induction m with
  | nil => simp [dictSet, dictGet]
  | cons kv rest ih =>
    by_cases h : kv.1 = k
    · simp [dictSet, dictGet, h]
    · simp [dictSet, dictGet, h, ih]

theorem dictGet_dictSet_ne : ∀ (m : Dict) (k k' : String) (v : Value), k' ≠ k →
    dictGet (dictSet m k v) k' = dictGet m k' := by
  intro m k k' v hne
  induction m with
  | nil =>
    simp only [dictSet, dictGet]
    rw [if_neg (fun hh => hne hh.symm)]
  | cons kv rest ih =>
    by_cases h : kv.1 = k
    · subst h
      simp only [dictSet, if_pos rfl, dictGet]
      rw [if_neg (fun hh => hne hh.symm), if_neg (fun hh : kv.1 = k' => hne (hh ▸ rfl))]
    · by_cases h2 : kv.1 = k'
      · simp [dictSet, dictGet, h, h2, hne]
      · simp [dictSet, dictGet, h, h2, ih]

theorem dictGet_stringifyDict : ∀ (m : Dict) (k : String),
    dictGet (stringifyDict m) k =
      (dictGet m k).map (fun v => Value.s (String.mk (pyStrVal v))) := by
  intro m k
  induction m with
  | nil => rfl
  | cons kv rest ih =>
    by_cases h : kv.1 = k
    · simp [stringifyDict, dictGet, h]
    · simp only [stringifyDict, List.map_cons] at *
      simp [dictGet, h, ih]

theorem applyWrites_not_mem : ∀ (ws : List (String × Value)) (m : Dict) (k : String),
    (∀ kv ∈ ws, kv.1 ≠ k) → dictGet (applyWrites m ws) k = dictGet m k := by
  intro ws
  induction ws with
  | nil => intro m k _; rfl
  | cons kv rest ih =>
    intro m k h
    show dictGet (applyWrites (dictSet m kv.1 kv.2) rest) k = dictGet m k
    rw [ih (dictSet m kv.1 kv.2) k (fun kv' h' => h kv' (List.mem_cons_of_mem kv h')),
      dictGet_dictSet_ne m kv.1 k kv.2 (Ne.symm (h kv (List.mem_cons_self kv rest)))]

/-! ### string-key disjointness toolkit -/

theorem str_ext {s t : String} (h : s.data = t.data) : s = t := by
  cases s
  cases t
  exact congrArg String.mk h

theorem append_left_cancel {p a b : String} (h : p ++ a = p ++ b) : a = b := by
  apply str_ext
  have := congrArg String.data h
  simp only [String.data_append] at this
  exact List.append_cancel_left this

theorem prefix_isPrefixOf (p y : String) : p.data.isPrefixOf (p ++ y).data = true := by
  rw [String.data_append]
  exact List.isPrefixOf_iff_prefix.mpr (List.prefix_append _ _)

theorem ne_of_prefix_free (p y t : String) (h : p.data.isPrefixOf t.data = false) :
    p ++ y ≠ t := by
  intro he
  rw [← he, prefix_isPrefixOf] at h
  exact absurd h (by decide)

theorem not_mem_of_prefix_free (p y : String) (l : List String)
    (h : ∀ t ∈ l, p.data.isPrefixOf t.data = false) : (p ++ y) ∉ l := by
  intro hmem
  have h1 := h (p ++ y) hmem
  rw [prefix_isPrefixOf] at h1
  exact absurd h1 (by decide)

theorem head_ne_head {s t : String} {c d : Char} (hs : s.data.head? = some c)
    (ht : t.data.head? = some d) (h : c ≠ d) : s ≠ t := by
  intro he
  rw [he, ht] at hs
  exact h (Option.some.inj hs).symm

theorem head?_append {p : String} {c : Char} {cs : List Char} (hp : p.data = c :: cs)
    (y : String) : (p ++ y).data.head? = some c := by
  rw [String.data_append, hp]
  rfl

theorem natStr_inj {i j : ℕ} (h : natStr i = natStr j) : i = j := by
  have h1 : natToChars i = natToChars j := congrArg String.data h
  have h2 := parseNat_natToChars i
  rw [h1, parseNat_natToChars j] at h2
  exact (Option.some.inj h2).symm

theorem digitRun_split : ∀ (a r b s : List Char),
    (∀ c ∈ a, (charDigit c).isSome) → (∀ c ∈ b, (charDigit c).isSome) →
    (∀ c, r.head? = some c → charDigit c = none) →
    (∀ c, s.head? = some c → charDigit c = none) →
    a ++ r = b ++ s → a = b ∧ r = s := by
  intro a
  induction a with
  | nil =>
    intro r b s _ hb hr _ he
    cases b with
    | nil => exact ⟨rfl, he⟩
    | cons c bs =>
      exfalso
      simp only [List.nil_append, List.cons_append] at he
      have h1 := hr c (by rw [he]; rfl)
      have h2 := hb c (List.mem_cons_self c bs)
      rw [h1] at h2
      exact absurd h2 (by decide)
  | cons c as ih =>
    intro r b s ha hb hr hs he
    cases b with
    | nil =>
      exfalso
      simp only [List.cons_append, List.nil_append] at he
      have h1 := hs c (by rw [← he]; rfl)
      have h2 := ha c (List.mem_cons_self c as)
      rw [h1] at h2
      exact absurd h2 (by decide)
    | cons c' bs =>
      simp only [List.cons_append, List.cons.injEq] at he
      obtain ⟨rfl, he2⟩ := he
      obtain ⟨hab, hrs⟩ := ih r bs s (fun x hx => ha x (List.mem_cons_of_mem c hx))
        (fun x hx => hb x (List.mem_cons_of_mem c hx)) hr hs he2
      exact ⟨by rw [hab], hrs⟩

/-- Non-digit head of a suffix string (all our key suffixes start with
an underscore or are empty). -/
def NondigitHead (s : String) : Prop := ∀ c, s.data.head? = some c → charDigit c = none

theorem idxKey_split {p sfx1 sfx2 : String} {i j : ℕ} (h1 : NondigitHead sfx1)
    (h2 : NondigitHead sfx2) (he : p ++ natStr i ++ sfx1 = p ++ natStr j ++ sfx2) :
    i = j ∧ sfx1 = sfx2 := by
  rw [String.append_assoc, String.append_assoc] at he
  have he2 := append_left_cancel he
  have he3 := congrArg String.data he2
  simp only [String.data_append] at he3
  have hall : ∀ n : ℕ, ∀ c ∈ (natStr n).data, (charDigit c).isSome := fun n => by
    show ∀ c ∈ natToChars n, (charDigit c).isSome
    exact natToChars_all_digit n
  obtain ⟨hd, hsfx⟩ := digitRun_split (natStr i).data sfx1.data (natStr j).data sfx2.data
    (hall i) (hall j) h1 h2 he3
  exact ⟨natStr_inj (str_ext hd), str_ext hsfx⟩


/-! ### Further string-key helpers -/

theorem data2_append {p : String} {c0 c1 : Char} {cs : List Char} (hp : p.data = c0 :: c1 :: cs)
    (y : String) : (p ++ y).data = c0 :: c1 :: (cs ++ y.data) := by
  rw [String.data_append, hp]
  rfl

theorem second_ne {s t : String} {c0 c1 d0 d1 : Char} {cs ds : List Char}
    (hs : s.data = c0 :: c1 :: cs) (ht : t.data = d0 :: d1 :: ds) (h : c1 ≠ d1) : s ≠ t := by
  intro he
  rw [he, ht] at hs
  injection hs with h1 hrest
  injection hrest with h2 _
  exact h h2.symm

theorem ne_of_ne_pref {p q : String} (y z : String) (hlen : p.length = q.length)
    (hne : p ≠ q) : p ++ y ≠ q ++ z := by
  intro he
  have hd := congrArg String.data he
  simp only [String.data_append] at hd
  have hlen2 : p.data.length = q.data.length := hlen
  obtain ⟨h1, _⟩ := List.append_inj hd hlen2
  exact hne (str_ext h1)

theorem nondigitHead_of (s : String) (c0 : Char) (cs : List Char) (hs : s.data = c0 :: cs)
    (h : charDigit c0 = none) : NondigitHead s := by
  intro c hc
  rw [hs] at hc
  cases Option.some.inj hc
  exact h

theorem keyObject_head (k : ℕ) (s : String) : (keyObject k s).data.head? = some 'O' := by
  unfold keyObject
  rw [String.append_assoc]
  exact head?_append rfl _

theorem keyObject_prefix_ne (k : ℕ) (sfx t : String)
    (h : ("Object_" : String).data.isPrefixOf t.data = false) : keyObject k sfx ≠ t := by
  unfold keyObject
  rw [String.append_assoc]
  exact ne_of_prefix_free "Object_" (natStr k ++ sfx) t h

theorem keyObject_not_mem (k : ℕ) (sfx : String) (l : List String)
    (h : ∀ t ∈ l, ("Object_" : String).data.isPrefixOf t.data = false) :
    keyObject k sfx ∉ l := by
  unfold keyObject
  rw [String.append_assoc]
  exact not_mem_of_prefix_free "Object_" (natStr k ++ sfx) l h

theorem keyObject_suffix_ne {s t : String} (k : ℕ) (hne : s ≠ t) :
    keyObject k s ≠ keyObject k t :=
  fun hh => hne (append_left_cancel hh)

theorem keyObject_cross_ne {s t : String} {j i : ℕ} (h1 : NondigitHead s)
    (h2 : NondigitHead t) (hji : j ≠ i) : keyObject j s ≠ keyObject i t :=
  fun hh => hji (idxKey_split h1 h2 hh).1

/-! ### Stringified-value cast helpers -/

theorem floatCastV_str (q : ℚ) (hq : PyFloat q) :
    floatCastV (Value.s (String.mk (pyStrVal (Value.f q)))) = some (Value.f q) := by
  show (pyFloatOfChars (pyFloatChars q)).map Value.f = some (Value.f q)
  rw [pyFloat_roundtrip q hq]
  rfl

theorem intCastV_str (n : ℤ) :
    intCastV (Value.s (String.mk (pyStrVal (Value.i n)))) = some (Value.i n) := by
  show (parseIntChars (intToChars n)).map Value.i = some (Value.i n)
  rw [parseInt_intToChars]
  rfl

/-! ### Fixed-list restoration lemmas -/

theorem restoreFixed_cons_none (cast : Value → Option Value) (f : String) (fs : List String)
    (m : Dict) (hg : dictGet m f = none) :
    restoreFixed cast (f :: fs) m = restoreFixed cast fs m := by
  conv_lhs => unfold restoreFixed
  rw [hg]

theorem restoreFixed_cons_some (cast : Value → Option Value) (f : String) (fs : List String)
    (m : Dict) (v : Value) (hg : dictGet m f = some v) :
    restoreFixed cast (f :: fs) m =
      match cast v with
      | none => none
      | some w => restoreFixed cast fs (dictSet m f w) := by
  conv_lhs => unfold restoreFixed
  rw [hg]

theorem restoreFixed_frame (cast : Value → Option Value) :
    ∀ (fields : List String) (m m₁ : Dict) (k : String),
    restoreFixed cast fields m = some m₁ → k ∉ fields → dictGet m₁ k = dictGet m k := by
  intro fields
  induction fields with
  | nil =>
    intro m m₁ k h _
    exact Option.some.inj h ▸ rfl
  | cons f fs ih =>
    intro m m₁ k h hk
    have hkf : k ≠ f := fun hh => hk (hh ▸ List.mem_cons_self f fs)
    have hkfs : k ∉ fs := fun hh => hk (List.mem_cons_of_mem f hh)
    cases hg : dictGet m f with
    | none =>
      rw [restoreFixed_cons_none cast f fs m hg] at h
      exact ih m m₁ k h hkfs
    | some v =>
      rw [restoreFixed_cons_some cast f fs m v hg] at h
      cases hc : cast v with
      | none =>
        rw [hc] at h
        exact absurd h (by simp)
      | some w =>
        rw [hc] at h
        rw [ih _ m₁ k h hkfs, dictGet_dictSet_ne m f k w hkf]

theorem restoreFixed_act (cast : Value → Option Value) :
    ∀ (fields : List String) (m m₁ : Dict) (k : String),
    restoreFixed cast fields m = some m₁ → fields.Nodup → k ∈ fields →
    ∀ v, dictGet m k = some v → ∃ w, cast v = some w ∧ dictGet m₁ k = some w := by
  intro fields
  induction fields with
  | nil =>
    intro m m₁ k _ _ hk
    exact absurd hk (List.not_mem_nil k)
  | cons f fs ih =>
    intro m m₁ k h hnd hk v hv
    rcases List.mem_cons.mp hk with rfl | hkfs
    · rw [restoreFixed_cons_some cast k fs m v hv] at h
      cases hc : cast v with
      | none =>
        rw [hc] at h
        exact absurd h (by simp)
      | some w =>
        rw [hc] at h
        refine ⟨w, rfl, ?_⟩
        have hknotfs : k ∉ fs := (List.nodup_cons.mp hnd).1
        rw [restoreFixed_frame cast fs _ m₁ k h hknotfs, dictGet_dictSet_self]
    · have hkf : k ≠ f := fun hh => (List.nodup_cons.mp hnd).1 (hh ▸ hkfs)
      cases hg : dictGet m f with
      | none =>
        rw [restoreFixed_cons_none cast f fs m hg] at h
        exact ih m m₁ k h (List.nodup_cons.mp hnd).2 hkfs v hv
      | some v0 =>
        rw [restoreFixed_cons_some cast f fs m v0 hg] at h
        cases hc : cast v0 with
        | none =>
          rw [hc] at h
          exact absurd h (by simp)
        | some w0 =>
          rw [hc] at h
          refine ih _ m₁ k h (List.nodup_cons.mp hnd).2 hkfs v ?_
          rw [dictGet_dictSet_ne m f k w0 hkf]
          exact hv

/-! ### Indexed cast-loop lemmas -/

theorem castLoop_cons_none (cast : Value → Option Value) (key : ℕ → String) (i : ℕ)
    (is : List ℕ) (m : Dict) (hg : dictGet m (key i) = none) :
    castLoop cast key (i :: is) m = none := by
  conv_lhs => unfold castLoop
  rw [hg]

theorem castLoop_cons_some (cast : Value → Option Value) (key : ℕ → String) (i : ℕ)
    (is : List ℕ) (m : Dict) (v : Value) (hg : dictGet m (key i) = some v) :
    castLoop cast key (i :: is) m =
      match cast v with
      | none => none
      | some w => castLoop cast key is (dictSet m (key i) w) := by
  conv_lhs => unfold castLoop
  rw [hg]

theorem castLoop_frame (cast : Value → Option Value) (key : ℕ → String) :
    ∀ (is : List ℕ) (m m₁ : Dict) (k : String),
    castLoop cast key is m = some m₁ → (∀ i ∈ is, key i ≠ k) →
    dictGet m₁ k = dictGet m k := by
  intro is
  induction is with
  | nil =>
    intro m m₁ k h _
    exact Option.some.inj h ▸ rfl
  | cons i is ih =>
    intro m m₁ k h hk
    cases hg : dictGet m (key i) with
    | none =>
      rw [castLoop_cons_none cast key i is m hg] at h
      exact absurd h (by simp)
    | some v =>
      rw [castLoop_cons_some cast key i is m v hg] at h
      cases hc : cast v with
      | none =>
        rw [hc] at h
        exact absurd h (by simp)
      | some w =>
        rw [hc] at h
        rw [ih _ m₁ k h (fun j hj => hk j (List.mem_cons_of_mem i hj)),
          dictGet_dictSet_ne m (key i) k w (fun hh => hk i (List.mem_cons_self i is) hh.symm)]

theorem castLoop_act (cast : Value → Option Value) (key : ℕ → String) :
    ∀ (is : List ℕ) (m m₁ : Dict) (i : ℕ),
    castLoop cast key is m = some m₁ → is.Nodup → i ∈ is →
    (∀ j ∈ is, key j = key i → j = i) →
    ∀ v, dictGet m (key i) = some v → ∃ w, cast v = some w ∧ dictGet m₁ (key i) = some w := by
  intro is
  induction is with
  | nil =>
    intro m m₁ i _ _ hi
    exact absurd hi (List.not_mem_nil i)
  | cons j is ih =>
    intro m m₁ i h hnd hi hinj v hv
    by_cases hji : j = i
    · subst hji
      rw [castLoop_cons_some cast key j is m v hv] at h
      cases hc : cast v with
      | none =>
        rw [hc] at h
        exact absurd h (by simp)
      | some w =>
        rw [hc] at h
        refine ⟨w, rfl, ?_⟩
        have hnj : j ∉ is := (List.nodup_cons.mp hnd).1
        rw [castLoop_frame cast key is _ m₁ (key j) h
          (fun j2 hj2 he => hnj ((hinj j2 (List.mem_cons_of_mem j hj2) he) ▸ hj2)),
          dictGet_dictSet_self]
    · have hii : i ∈ is := by
        rcases List.mem_cons.mp hi with rfl | hm
        · exact absurd rfl hji
        · exact hm
      have hkji : key j ≠ key i := fun hh => hji (hinj j (List.mem_cons_self j is) hh)
      cases hg : dictGet m (key j) with
      | none =>
        rw [castLoop_cons_none cast key j is m hg] at h
        exact absurd h (by simp)
      | some v0 =>
        rw [castLoop_cons_some cast key j is m v0 hg] at h
        cases hc : cast v0 with
        | none =>
          rw [hc] at h
          exact absurd h (by simp)
        | some w0 =>
          rw [hc] at h
          refine ih _ m₁ i h (List.nodup_cons.mp hnd).2 hii
            (fun j2 hj2 he => hinj j2 (List.mem_cons_of_mem j hj2) he) v ?_
          rw [dictGet_dictSet_ne m (key j) (key i) w0 (fun hh => hkji hh.symm)]
          exact hv

/-! ### Single-cast lemmas -/

theorem castOne_none (cast : Value → Option Value) (k : String) (m : Dict)
    (hg : dictGet m k = none) : castOne cast k m = none := by
  unfold castOne
  rw [hg]

theorem castOne_eq (cast : Value → Option Value) (k : String) (m : Dict) (v : Value)
    (hg : dictGet m k = some v) : castOne cast k m = (cast v).map (dictSet m k) := by
  unfold castOne
  rw [hg]

theorem castOne_some_elim (cast : Value → Option Value) (k : String) (m m₁ : Dict)
    (h : castOne cast k m = some m₁) :
    ∃ v w, dictGet m k = some v ∧ cast v = some w ∧ m₁ = dictSet m k w := by
  cases hg : dictGet m k with
  | none =>
    rw [castOne_none cast k m hg] at h
    exact absurd h (by simp)
  | some v =>
    rw [castOne_eq cast k m v hg] at h
    cases hc : cast v with
    | none =>
      rw [hc] at h
      exact absurd h (by simp)
    | some w =>
      rw [hc] at h
      exact ⟨v, w, rfl, hc, (Option.some.inj h).symm⟩

theorem castOne_frame (cast : Value → Option Value) (k : String) (m m₁ : Dict) (k' : String)
    (h : castOne cast k m = some m₁) (hk : k' ≠ k) : dictGet m₁ k' = dictGet m k' := by
  obtain ⟨v, w, _, _, hm⟩ := castOne_some_elim cast k m m₁ h
  rw [hm, dictGet_dictSet_ne m k k' w hk]

theorem castOne_act (cast : Value → Option Value) (k : String) (m m₁ : Dict) (v : Value)
    (h : castOne cast k m = some m₁) (hv : dictGet m k = some v) :
    ∃ w, cast v = some w ∧ dictGet m₁ k = some w := by
  obtain ⟨v0, w, hg, hc, hm⟩ := castOne_some_elim cast k m m₁ h
  cases Option.some.inj (hg.symm.trans hv)
  exact ⟨w, hc, by rw [hm, dictGet_dictSet_self]⟩


/-! ### Per-object restoration lemmas -/

theorem objRestoreStep_elim (m m₁ : Dict) (i : ℕ) (h : objRestoreStep m i = some m₁) :
    ∃ mA mB mC mD mE mF mG,
      castOne floatCastV (keyObject i "_Confidence") m = some mA ∧
      castOne floatCastV (keyObject i "_Direction") mA = some mB ∧
      castOne intCastV ("x" ++ natStr i)
        (dictSet (dictSet mB (keyObject i "_Longitude") (Value.f 0))
          (keyObject i "_Latitude") (Value.f 0)) = some mC ∧
      castOne intCastV ("y" ++ natStr i) mC = some mD ∧
      castOne intCastV ("w" ++ natStr i) mD = some mE ∧
      castOne intCastV ("h" ++ natStr i) mE = some mF ∧
      castOne floatCastV ("Center_x" ++ natStr i) mF = some mG ∧
      castOne floatCastV ("Center_y" ++ natStr i) mG = some m₁ := by
  unfold objRestoreStep at h
  obtain ⟨mA, hA, h⟩ := Option.bind_eq_some.mp h
  obtain ⟨mB, hB, h⟩ := Option.bind_eq_some.mp h
  obtain ⟨mC, hC, h⟩ := Option.bind_eq_some.mp h
  obtain ⟨mD, hD, h⟩ := Option.bind_eq_some.mp h
  obtain ⟨mE, hE, h⟩ := Option.bind_eq_some.mp h
  obtain ⟨mF, hF, h⟩ := Option.bind_eq_some.mp h
  obtain ⟨mG, hG, h⟩ := Option.bind_eq_some.mp h
  obtain ⟨mH, hH, h⟩ := Option.bind_eq_some.mp h
  exact ⟨mA, mB, mC, mD, mE, mF, mG, hA, hB, hC, hD, hE, hF, hG,
    (Option.some.inj h) ▸ hH⟩

theorem objRestoreStep_frame (m m₁ : Dict) (i : ℕ) (k' : String)
    (h : objRestoreStep m i = some m₁) (hne : ∀ s ∈ objStepKeys i, s ≠ k') :
    dictGet m₁ k' = dictGet m k' := by
  obtain ⟨mA, mB, mC, mD, mE, mF, mG, hA, hB, hC, hD, hE, hF, hG, hH⟩ :=
    objRestoreStep_elim m m₁ i h
  have n1 := hne _ (show keyObject i "_Confidence" ∈ objStepKeys i by simp [objStepKeys])
  have n2 := hne _ (show keyObject i "_Direction" ∈ objStepKeys i by simp [objStepKeys])
  have n3 := hne _ (show keyObject i "_Longitude" ∈ objStepKeys i by simp [objStepKeys])
  have n4 := hne _ (show keyObject i "_Latitude" ∈ objStepKeys i by simp [objStepKeys])
  have n5 := hne _ (show "x" ++ natStr i ∈ objStepKeys i by simp [objStepKeys])
  have n6 := hne _ (show "y" ++ natStr i ∈ objStepKeys i by simp [objStepKeys])
  have n7 := hne _ (show "w" ++ natStr i ∈ objStepKeys i by simp [objStepKeys])
  have n8 := hne _ (show "h" ++ natStr i ∈ objStepKeys i by simp [objStepKeys])
  have n9 := hne _ (show "Center_x" ++ natStr i ∈ objStepKeys i by simp [objStepKeys])
  have n10 := hne _ (show "Center_y" ++ natStr i ∈ objStepKeys i by simp [objStepKeys])
  rw [castOne_frame _ _ _ _ _ hH (Ne.symm n10), castOne_frame _ _ _ _ _ hG (Ne.symm n9),
    castOne_frame _ _ _ _ _ hF (Ne.symm n8), castOne_frame _ _ _ _ _ hE (Ne.symm n7),
    castOne_frame _ _ _ _ _ hD (Ne.symm n6), castOne_frame _ _ _ _ _ hC (Ne.symm n5),
    dictGet_dictSet_ne _ _ _ _ (Ne.symm n4), dictGet_dictSet_ne _ _ _ _ (Ne.symm n3),
    castOne_frame _ _ _ _ _ hB (Ne.symm n2), castOne_frame _ _ _ _ _ hA (Ne.symm n1)]

theorem objRestoreLoop_cons_none (k : ℕ) (ks : List ℕ) (m : Dict)
    (hg : objRestoreStep m k = none) : objRestoreLoop (k :: ks) m = none := by
  conv_lhs => unfold objRestoreLoop
  rw [hg]

theorem objRestoreLoop_cons_some (k : ℕ) (ks : List ℕ) (m m0 : Dict)
    (hg : objRestoreStep m k = some m0) :
    objRestoreLoop (k :: ks) m = objRestoreLoop ks m0 := by
  conv_lhs => unfold objRestoreLoop
  rw [hg]

theorem objRestoreLoop_frame : ∀ (ks : List ℕ) (m m₁ : Dict) (k' : String),
    objRestoreLoop ks m = some m₁ → (∀ k ∈ ks, ∀ s ∈ objStepKeys k, s ≠ k') →
    dictGet m₁ k' = dictGet m k' := by
  intro ks
  induction ks with
  | nil =>
    intro m m₁ k' h _
    exact Option.some.inj h ▸ rfl
  | cons k ks ih =>
    intro m m₁ k' h hk
    cases hg : objRestoreStep m k with
    | none =>
      rw [objRestoreLoop_cons_none k ks m hg] at h
      exact absurd h (by simp)
    | some m0 =>
      rw [objRestoreLoop_cons_some k ks m m0 hg] at h
      rw [ih m0 m₁ k' h (fun k2 h2 => hk k2 (List.mem_cons_of_mem k h2)),
        objRestoreStep_frame m m0 k k' hg (hk k (List.mem_cons_self k ks))]

theorem objRestoreLoop_act : ∀ (ks : List ℕ) (m m₁ : Dict) (i : ℕ),
    objRestoreLoop ks m = some m₁ → ks.Nodup → i ∈ ks →
    (∀ j ∈ ks, j ≠ i → ∀ s ∈ objStepKeys j, ∀ t ∈ objStepKeys i, s ≠ t) →
    ∃ m0 m0', objRestoreStep m0 i = some m0' ∧
      (∀ t ∈ objStepKeys i, dictGet m0 t = dictGet m t) ∧
      (∀ t ∈ objStepKeys i, dictGet m₁ t = dictGet m0' t) := by
  intro ks
  induction ks with
  | nil =>
    intro m m₁ i _ _ hi
    exact absurd hi (List.not_mem_nil i)
  | cons j ks ih =>
    intro m m₁ i h hnd hi hdisj
    by_cases hji : j = i
    · subst hji
      cases hg : objRestoreStep m j with
      | none =>
        rw [objRestoreLoop_cons_none j ks m hg] at h
        exact absurd h (by simp)
      | some m0 =>
        rw [objRestoreLoop_cons_some j ks m m0 hg] at h
        refine ⟨m, m0, hg, fun t _ => rfl, fun t ht => ?_⟩
        refine objRestoreLoop_frame ks m0 m₁ t h ?_
        intro k2 hk2 s hs
        exact hdisj k2 (List.mem_cons_of_mem j hk2)
          (fun he => (List.nodup_cons.mp hnd).1 (he ▸ hk2)) s hs t ht
    · have hii : i ∈ ks := by
        rcases List.mem_cons.mp hi with rfl | hm
        · exact absurd rfl hji
        · exact hm
      cases hg : objRestoreStep m j with
      | none =>
        rw [objRestoreLoop_cons_none j ks m hg] at h
        exact absurd h (by simp)
      | some m0 =>
        rw [objRestoreLoop_cons_some j ks m m0 hg] at h
        obtain ⟨m2, m2', hstep, hpre, hpost⟩ := ih m0 m₁ i h (List.nodup_cons.mp hnd).2 hii
          (fun j2 hj2 => hdisj j2 (List.mem_cons_of_mem j hj2))
        refine ⟨m2, m2', hstep, fun t ht => ?_, hpost⟩
        rw [hpre t ht, objRestoreStep_frame m m0 j t hg
          (fun s hs => hdisj j (List.mem_cons_self j ks) hji s hs t ht)]

/-! ### Count-bounded loop lemmas -/

theorem countLoop_frame (ck : String) (body : List ℕ → Dict → Option Dict) (m m₁ : Dict)
    (k : String) (h : countLoop ck body m = some m₁)
    (hbody : ∀ idxs m0 m0', body idxs m0 = some m0' → dictGet m0' k = dictGet m0 k) :
    dictGet m₁ k = dictGet m k := by
  unfold countLoop at h
  obtain ⟨cv, hcv, h⟩ := Option.bind_eq_some.mp h
  obtain ⟨b, hb, h⟩ := Option.bind_eq_some.mp h
  cases b with
  | false =>
    rw [if_neg (by decide : ¬ (false = true))] at h
    exact Option.some.inj h ▸ rfl
  | true =>
    rw [if_pos rfl] at h
    obtain ⟨n, hn, h⟩ := Option.bind_eq_some.mp h
    exact hbody _ _ _ h

theorem countLoop_act_int (ck : String) (body : List ℕ → Dict → Option Dict) (m m₁ : Dict)
    (n : ℤ) (hget : dictGet m ck = some (Value.i n)) (hpos : 1 ≤ n)
    (h : countLoop ck body m = some m₁) :
    body ((List.range n.toNat).map (fun j => j + 1)) m = some m₁ := by
  unfold countLoop at h
  obtain ⟨cv, hcv, h⟩ := Option.bind_eq_some.mp h
  cases Option.some.inj (hcv.symm.trans hget)
  obtain ⟨b, hb, h⟩ := Option.bind_eq_some.mp h
  have hbt : b = true := by
    have h2 := Option.some.inj hb
    rw [← h2]
    exact decide_eq_true hpos
  subst hbt
  rw [if_pos rfl] at h
  obtain ⟨n2, hn2, h⟩ := Option.bind_eq_some.mp h
  cases Option.some.inj hn2
  exact h

theorem idxs_nodup (n : ℕ) : ((List.range n).map (fun j => j + 1)).Nodup :=
  (List.nodup_range n).map (fun a b hab => by omega)

theorem mem_idxs {n i : ℕ} (h1 : 1 ≤ i) (h2 : i ≤ n) :
    i ∈ (List.range n).map (fun j => j + 1) :=
  List.mem_map.mpr ⟨i - 1, List.mem_range.mpr (by omega), by omega⟩


theorem objRestoreStep_spec (m m₁ : Dict) (i : ℕ) (h : objRestoreStep m i = some m₁) :
    (∀ v, dictGet m (keyObject i "_Confidence") = some v →
      ∃ w, floatCastV v = some w ∧ dictGet m₁ (keyObject i "_Confidence") = some w) ∧
    (∀ v, dictGet m (keyObject i "_Direction") = some v →
      ∃ w, floatCastV v = some w ∧ dictGet m₁ (keyObject i "_Direction") = some w) ∧
    dictGet m₁ (keyObject i "_Longitude") = some (Value.f 0) ∧
    dictGet m₁ (keyObject i "_Latitude") = some (Value.f 0) ∧
    (∀ v, dictGet m ("x" ++ natStr i) = some v →
      ∃ w, intCastV v = some w ∧ dictGet m₁ ("x" ++ natStr i) = some w) ∧
    (∀ v, dictGet m ("y" ++ natStr i) = some v →
      ∃ w, intCastV v = some w ∧ dictGet m₁ ("y" ++ natStr i) = some w) ∧
    (∀ v, dictGet m ("w" ++ natStr i) = some v →
      ∃ w, intCastV v = some w ∧ dictGet m₁ ("w" ++ natStr i) = some w) ∧
    (∀ v, dictGet m ("h" ++ natStr i) = some v →
      ∃ w, intCastV v = some w ∧ dictGet m₁ ("h" ++ natStr i) = some w) ∧
    (∀ v, dictGet m ("Center_x" ++ natStr i) = some v →
      ∃ w, floatCastV v = some w ∧ dictGet m₁ ("Center_x" ++ natStr i) = some w) ∧
    (∀ v, dictGet m ("Center_y" ++ natStr i) = some v →
      ∃ w, floatCastV v = some w ∧ dictGet m₁ ("Center_y" ++ natStr i) = some w) := by
  obtain ⟨mA, mB, mC, mD, mE, mF, mG, hA, hB, hC, hD, hE, hF, hG, hH⟩ :=
    objRestoreStep_elim m m₁ i h
  have hO1 : (keyObject i "_Confidence").data.head? = some 'O' := keyObject_head i _
  have hO2 : (keyObject i "_Direction").data.head? = some 'O' := keyObject_head i _
  have hO3 : (keyObject i "_Longitude").data.head? = some 'O' := keyObject_head i _
  have hO4 : (keyObject i "_Latitude").data.head? = some 'O' := keyObject_head i _
  have hL5 : (("x" : String) ++ natStr i).data.head? = some 'x' := head?_append rfl _
  have hL6 : (("y" : String) ++ natStr i).data.head? = some 'y' := head?_append rfl _
  have hL7 : (("w" : String) ++ natStr i).data.head? = some 'w' := head?_append rfl _
  have hL8 : (("h" : String) ++ natStr i).data.head? = some 'h' := head?_append rfl _
  have hL9 : (("Center_x" : String) ++ natStr i).data.head? = some 'C' := head?_append rfl _
  have hL10 : (("Center_y" : String) ++ natStr i).data.head? = some 'C' := head?_append rfl _
  have e12 : keyObject i "_Confidence" ≠ keyObject i "_Direction" :=
    keyObject_suffix_ne i (by decide)
  have e13 : keyObject i "_Confidence" ≠ keyObject i "_Longitude" :=
    keyObject_suffix_ne i (by decide)
  have e14 : keyObject i "_Confidence" ≠ keyObject i "_Latitude" :=
    keyObject_suffix_ne i (by decide)
  have e23 : keyObject i "_Direction" ≠ keyObject i "_Longitude" :=
    keyObject_suffix_ne i (by decide)
  have e24 : keyObject i "_Direction" ≠ keyObject i "_Latitude" :=
    keyObject_suffix_ne i (by decide)
  have e34 : keyObject i "_Longitude" ≠ keyObject i "_Latitude" :=
    keyObject_suffix_ne i (by decide)
  have e9x : ("Center_x" : String) ++ natStr i ≠ ("Center_y" : String) ++ natStr i :=
    ne_of_ne_pref _ _ rfl (by decide)
  have frA : ∀ k', k' ≠ keyObject i "_Confidence" → dictGet mA k' = dictGet m k' :=
    fun k' hk => castOne_frame _ _ _ _ _ hA hk
  have frB : ∀ k', k' ≠ keyObject i "_Direction" → dictGet mB k' = dictGet mA k' :=
    fun k' hk => castOne_frame _ _ _ _ _ hB hk
  have frS : ∀ k', k' ≠ keyObject i "_Longitude" → k' ≠ keyObject i "_Latitude" →
      dictGet (dictSet (dictSet mB (keyObject i "_Longitude") (Value.f 0))
        (keyObject i "_Latitude") (Value.f 0)) k' = dictGet mB k' := by
    intro k' h3 h4
    rw [dictGet_dictSet_ne _ _ _ _ h4, dictGet_dictSet_ne _ _ _ _ h3]
  have frC : ∀ k', k' ≠ ("x" : String) ++ natStr i → dictGet mC k' =
      dictGet (dictSet (dictSet mB (keyObject i "_Longitude") (Value.f 0))
        (keyObject i "_Latitude") (Value.f 0)) k' :=
    fun k' hk => castOne_frame _ _ _ _ _ hC hk
  have frD : ∀ k', k' ≠ ("y" : String) ++ natStr i → dictGet mD k' = dictGet mC k' :=
    fun k' hk => castOne_frame _ _ _ _ _ hD hk
  have frE : ∀ k', k' ≠ ("w" : String) ++ natStr i → dictGet mE k' = dictGet mD k' :=
    fun k' hk => castOne_frame _ _ _ _ _ hE hk
  have frF : ∀ k', k' ≠ ("h" : String) ++ natStr i → dictGet mF k' = dictGet mE k' :=
    fun k' hk => castOne_frame _ _ _ _ _ hF hk
  have frG : ∀ k', k' ≠ ("Center_x" : String) ++ natStr i → dictGet mG k' = dictGet mF k' :=
    fun k' hk => castOne_frame _ _ _ _ _ hG hk
  have frH : ∀ k', k' ≠ ("Center_y" : String) ++ natStr i → dictGet m₁ k' = dictGet mG k' :=
    fun k' hk => castOne_frame _ _ _ _ _ hH hk
  refine ⟨?_, ?_, ?_, ?_, ?_, ?_, ?_, ?_, ?_, ?_⟩
  · intro v hv
    obtain ⟨w, hwc, hval⟩ := castOne_act floatCastV _ m mA v hA hv
    refine ⟨w, hwc, ?_⟩
    rw [frH _ (head_ne_head hO1 hL10 (by decide)), frG _ (head_ne_head hO1 hL9 (by decide)),
      frF _ (head_ne_head hO1 hL8 (by decide)), frE _ (head_ne_head hO1 hL7 (by decide)),
      frD _ (head_ne_head hO1 hL6 (by decide)), frC _ (head_ne_head hO1 hL5 (by decide)),
      frS _ e13 e14, frB _ e12]
    exact hval
  · intro v hv
    have hv1 : dictGet mA (keyObject i "_Direction") = some v :=
      (frA _ (Ne.symm e12)).trans hv
    obtain ⟨w, hwc, hval⟩ := castOne_act floatCastV _ mA mB v hB hv1
    refine ⟨w, hwc, ?_⟩
    rw [frH _ (head_ne_head hO2 hL10 (by decide)), frG _ (head_ne_head hO2 hL9 (by decide)),
      frF _ (head_ne_head hO2 hL8 (by decide)), frE _ (head_ne_head hO2 hL7 (by decide)),
      frD _ (head_ne_head hO2 hL6 (by decide)), frC _ (head_ne_head hO2 hL5 (by decide)),
      frS _ e23 e24]
    exact hval
  · rw [frH _ (head_ne_head hO3 hL10 (by decide)), frG _ (head_ne_head hO3 hL9 (by decide)),
      frF _ (head_ne_head hO3 hL8 (by decide)), frE _ (head_ne_head hO3 hL7 (by decide)),
      frD _ (head_ne_head hO3 hL6 (by decide)), frC _ (head_ne_head hO3 hL5 (by decide)),
      dictGet_dictSet_ne _ _ _ _ e34, dictGet_dictSet_self]
  · rw [frH _ (head_ne_head hO4 hL10 (by decide)), frG _ (head_ne_head hO4 hL9 (by decide)),
      frF _ (head_ne_head hO4 hL8 (by decide)), frE _ (head_ne_head hO4 hL7 (by decide)),
      frD _ (head_ne_head hO4 hL6 (by decide)), frC _ (head_ne_head hO4 hL5 (by decide)),
      dictGet_dictSet_self]
  · intro v hv
    have hv1 : dictGet (dictSet (dictSet mB (keyObject i "_Longitude") (Value.f 0))
        (keyObject i "_Latitude") (Value.f 0)) (("x" : String) ++ natStr i) = some v := by
      rw [frS _ (head_ne_head hL5 hO3 (by decide)) (head_ne_head hL5 hO4 (by decide)),
        frB _ (head_ne_head hL5 hO2 (by decide)), frA _ (head_ne_head hL5 hO1 (by decide))]
      exact hv
    obtain ⟨w, hwc, hval⟩ := castOne_act intCastV _ _ mC v hC hv1
    refine ⟨w, hwc, ?_⟩
    rw [frH _ (head_ne_head hL5 hL10 (by decide)), frG _ (head_ne_head hL5 hL9 (by decide)),
      frF _ (head_ne_head hL5 hL8 (by decide)), frE _ (head_ne_head hL5 hL7 (by decide)),
      frD _ (head_ne_head hL5 hL6 (by decide))]
    exact hval
  · intro v hv
    have hv1 : dictGet mC (("y" : String) ++ natStr i) = some v := by
      rw [frC _ (head_ne_head hL6 hL5 (by decide)),
        frS _ (head_ne_head hL6 hO3 (by decide)) (head_ne_head hL6 hO4 (by decide)),
        frB _ (head_ne_head hL6 hO2 (by decide)), frA _ (head_ne_head hL6 hO1 (by decide))]
      exact hv
    obtain ⟨w, hwc, hval⟩ := castOne_act intCastV _ mC mD v hD hv1
    refine ⟨w, hwc, ?_⟩
    rw [frH _ (head_ne_head hL6 hL10 (by decide)), frG _ (head_ne_head hL6 hL9 (by decide)),
      frF _ (head_ne_head hL6 hL8 (by decide)), frE _ (head_ne_head hL6 hL7 (by decide))]
    exact hval
  · intro v hv
    have hv1 : dictGet mD (("w" : String) ++ natStr i) = some v := by
      rw [frD _ (head_ne_head hL7 hL6 (by decide)), frC _ (head_ne_head hL7 hL5 (by decide)),
        frS _ (head_ne_head hL7 hO3 (by decide)) (head_ne_head hL7 hO4 (by decide)),
        frB _ (head_ne_head hL7 hO2 (by decide)), frA _ (head_ne_head hL7 hO1 (by decide))]
      exact hv
    obtain ⟨w, hwc, hval⟩ := castOne_act intCastV _ mD mE v hE hv1
    refine ⟨w, hwc, ?_⟩
    rw [frH _ (head_ne_head hL7 hL10 (by decide)), frG _ (head_ne_head hL7 hL9 (by decide)),
      frF _ (head_ne_head hL7 hL8 (by decide))]
    exact hval
  · intro v hv
    have hv1 : dictGet mE (("h" : String) ++ natStr i) = some v := by
      rw [frE _ (head_ne_head hL8 hL7 (by decide)), frD _ (head_ne_head hL8 hL6 (by decide)),
        frC _ (head_ne_head hL8 hL5 (by decide)),
        frS _ (head_ne_head hL8 hO3 (by decide)) (head_ne_head hL8 hO4 (by decide)),
        frB _ (head_ne_head hL8 hO2 (by decide)), frA _ (head_ne_head hL8 hO1 (by decide))]
      exact hv
    obtain ⟨w, hwc, hval⟩ := castOne_act intCastV _ mE mF v hF hv1
    refine ⟨w, hwc, ?_⟩
    rw [frH _ (head_ne_head hL8 hL10 (by decide)), frG _ (head_ne_head hL8 hL9 (by decide))]
    exact hval
  · intro v hv
    have hv1 : dictGet mF (("Center_x" : String) ++ natStr i) = some v := by
      rw [frF _ (head_ne_head hL9 hL8 (by decide)), frE _ (head_ne_head hL9 hL7 (by decide)),
        frD _ (head_ne_head hL9 hL6 (by decide)), frC _ (head_ne_head hL9 hL5 (by decide)),
        frS _ (head_ne_head hL9 hO3 (by decide)) (head_ne_head hL9 hO4 (by decide)),
        frB _ (head_ne_head hL9 hO2 (by decide)), frA _ (head_ne_head hL9 hO1 (by decide))]
      exact hv
    obtain ⟨w, hwc, hval⟩ := castOne_act floatCastV _ mF mG v hG hv1
    refine ⟨w, hwc, ?_⟩
    rw [frH _ e9x]
    exact hval
  · intro v hv
    have hv1 : dictGet mG (("Center_y" : String) ++ natStr i) = some v := by
      rw [frG _ (Ne.symm e9x), frF _ (head_ne_head hL10 hL8 (by decide)),
        frE _ (head_ne_head hL10 hL7 (by decide)), frD _ (head_ne_head hL10 hL6 (by decide)),
        frC _ (head_ne_head hL10 hL5 (by decide)),
        frS _ (head_ne_head hL10 hO3 (by decide)) (head_ne_head hL10 hO4 (by decide)),
        frB _ (head_ne_head hL10 hO2 (by decide)), frA _ (head_ne_head hL10 hO1 (by decide))]
      exact hv
    obtain ⟨w, hwc, hval⟩ := castOne_act floatCastV _ mG m₁ v hH hv1
    exact ⟨w, hwc, hval⟩


theorem objStepKeys_disjoint {j i : ℕ} (hji : j ≠ i) :
    ∀ s ∈ objStepKeys j, ∀ t ∈ objStepKeys i, s ≠ t := by
  intro s hs t ht
  simp only [objStepKeys, List.mem_cons, List.not_mem_nil, or_false] at hs ht
  rcases hs with rfl | rfl | rfl | rfl | rfl | rfl | rfl | rfl | rfl | rfl <;>
    rcases ht with rfl | rfl | rfl | rfl | rfl | rfl | rfl | rfl | rfl | rfl <;>
    first
      | exact keyObject_cross_ne (nondigitHead_of _ '_' _ rfl (by decide))
          (nondigitHead_of _ '_' _ rfl (by decide)) hji
      | exact head_ne_head (keyObject_head _ _) (head?_append rfl _) (by decide)
      | exact head_ne_head (head?_append rfl _) (keyObject_head _ _) (by decide)
      | exact head_ne_head (head?_append rfl _) (head?_append rfl _) (by decide)
      | exact fun he => hji (natStr_inj (append_left_cancel he))
      | exact ne_of_ne_pref _ _ rfl (by decide)

theorem stages345_frame (k : String) (hpk : PlainKey k = true) (m2 m3 m4 m5 : Dict)
    (h3 : countLoop "Number_of_Categories" (castLoop floatCastV keyCategoryScore) m2 = some m3)
    (h4 : countLoop "Number_of_Tags" (castLoop floatCastV keyTagConfidence) m3 = some m4)
    (h5 : countLoop "Number_of_Objects" objRestoreLoop m4 = some m5) :
    dictGet m5 k = dictGet m2 k := by
  simp only [PlainKey, Bool.and_eq_true, Bool.not_eq_true'] at hpk
  obtain ⟨⟨⟨⟨⟨⟨⟨⟨pc, pt⟩, po⟩, px⟩, py⟩, pw⟩, ph⟩, pcx⟩, pcy⟩ := hpk
  have g3 : dictGet m3 k = dictGet m2 k :=
    countLoop_frame _ _ _ _ _ h3 (fun idxs m0 m0' hb =>
      castLoop_frame _ _ _ _ _ _ hb
        (fun i2 _ => ne_of_prefix_free "Category_Score_" (natStr i2) k pc))
  have g4 : dictGet m4 k = dictGet m3 k :=
    countLoop_frame _ _ _ _ _ h4 (fun idxs m0 m0' hb =>
      castLoop_frame _ _ _ _ _ _ hb
        (fun i2 _ => ne_of_prefix_free "Tag_Confidence_" (natStr i2) k pt))
  have g5 : dictGet m5 k = dictGet m4 k := by
    refine countLoop_frame _ _ _ _ _ h5 (fun idxs m0 m0' hb => ?_)
    refine objRestoreLoop_frame _ _ _ _ hb ?_
    intro k0 _ s hs
    simp only [objStepKeys, List.mem_cons, List.not_mem_nil, or_false] at hs
    rcases hs with rfl | rfl | rfl | rfl | rfl | rfl | rfl | rfl | rfl | rfl
    · exact keyObject_prefix_ne _ _ _ po
    · exact keyObject_prefix_ne _ _ _ po
    · exact keyObject_prefix_ne _ _ _ po
    · exact keyObject_prefix_ne _ _ _ po
    · exact ne_of_prefix_free "x" _ _ px
    · exact ne_of_prefix_free "y" _ _ py
    · exact ne_of_prefix_free "w" _ _ pw
    · exact ne_of_prefix_free "h" _ _ ph
    · exact ne_of_prefix_free "Center_x" _ _ pcx
    · exact ne_of_prefix_free "Center_y" _ _ pcy
  exact g5.trans (g4.trans g3)

theorem plain_not_indexed (t : String) (hpk : PlainKey t = true) :
    (∀ i2, keyCategoryScore i2 ≠ t) ∧ (∀ i2, keyTagConfidence i2 ≠ t) ∧
    (∀ i2, ∀ s ∈ objStepKeys i2, s ≠ t) := by
  simp only [PlainKey, Bool.and_eq_true, Bool.not_eq_true'] at hpk
  obtain ⟨⟨⟨⟨⟨⟨⟨⟨pc, pt⟩, po⟩, px⟩, py⟩, pw⟩, ph⟩, pcx⟩, pcy⟩ := hpk
  refine ⟨fun i2 => ne_of_prefix_free "Category_Score_" (natStr i2) t pc,
    fun i2 => ne_of_prefix_free "Tag_Confidence_" (natStr i2) t pt, ?_⟩
  intro i2 s hs
  simp only [objStepKeys, List.mem_cons, List.not_mem_nil, or_false] at hs
  rcases hs with rfl | rfl | rfl | rfl | rfl | rfl | rfl | rfl | rfl | rfl
  · exact keyObject_prefix_ne _ _ _ po
  · exact keyObject_prefix_ne _ _ _ po
  · exact keyObject_prefix_ne _ _ _ po
  · exact keyObject_prefix_ne _ _ _ po
  · exact ne_of_prefix_free "x" _ _ px
  · exact ne_of_prefix_free "y" _ _ py
  · exact ne_of_prefix_free "w" _ _ pw
  · exact ne_of_prefix_free "h" _ _ ph
  · exact ne_of_prefix_free "Center_x" _ _ pcx
  · exact ne_of_prefix_free "Center_y" _ _ pcy

/-- C6 counterexample: the record `wRecClip` contains the numeric field
`Clip_Art_Type` (written by the enrichment stage from the vision response);
after stringification the aggregation stage restores none of the fields outside
its fixed lists and loops, so `Clip_Art_Type` comes back as the string `"0"`,
not the int `0`, and the restored record differs from the pre-stringified one. -/
theorem c6_counterexample :
    (restoreRecord (stringifyDict wRecClip)).map (fun r => dictGet r "Clip_Art_Type") =
      some (some (Value.s "0")) ∧
    dictGet wRecClip "Clip_Art_Type" = some (Value.i 0) ∧
    restoreRecord (stringifyDict wRecClip) ≠ some wRecClip := by
  refine ⟨by decide, by decide, by decide⟩


/-- C6 (amended): a stringified record run through the aggregation stage's type
restoration gets back exactly the fields the code touches: every present field
of the fixed float list is restored to its float value and every present field
of the fixed int list to its int value; for indices within the record's own
`Number_of_Categories` / `Number_of_Tags` counts the indexed confidence fields
are restored to floats; for indices within `Number_of_Objects` the per-object
confidence, direction and center fields are restored to floats, the box fields
to ints, and the object longitude/latitude are overwritten with the literal
float `0.0`; every other key — `Clip_Art_Type`, `Line_Drawing_Type`, the parent
category confidences, and any field outside the lists — remains the persisted
string, so the restored record is not in general equal to the pre-stringified
one. -/
theorem c6_amended (m m' : Dict) (hres : restoreRecord (stringifyDict m) = some m') :
    (∀ k ∈ fieldsFloatAgg, ∀ q : ℚ, PyFloat q → dictGet m k = some (Value.f q) →
      dictGet m' k = some (Value.f q)) ∧
    (∀ k ∈ fieldsIntAgg, ∀ n : ℤ, dictGet m k = some (Value.i n) →
      dictGet m' k = some (Value.i n)) ∧
    (∀ nc : ℤ, dictGet m "Number_of_Categories" = some (Value.i nc) →
      ∀ i : ℕ, 1 ≤ i → (i : ℤ) ≤ nc → ∀ q : ℚ, PyFloat q →
        dictGet m (keyCategoryScore i) = some (Value.f q) →
        dictGet m' (keyCategoryScore i) = some (Value.f q)) ∧
    (∀ nt : ℤ, dictGet m "Number_of_Tags" = some (Value.i nt) →
      ∀ i : ℕ, 1 ≤ i → (i : ℤ) ≤ nt → ∀ q : ℚ, PyFloat q →
        dictGet m (keyTagConfidence i) = some (Value.f q) →
        dictGet m' (keyTagConfidence i) = some (Value.f q)) ∧
    (∀ no : ℤ, dictGet m "Number_of_Objects" = some (Value.i no) →
      ∀ i : ℕ, 1 ≤ i → (i : ℤ) ≤ no →
        (∀ q : ℚ, PyFloat q → dictGet m (keyObject i "_Confidence") = some (Value.f q) →
          dictGet m' (keyObject i "_Confidence") = some (Value.f q)) ∧
        (∀ q : ℚ, PyFloat q → dictGet m (keyObject i "_Direction") = some (Value.f q) →
          dictGet m' (keyObject i "_Direction") = some (Value.f q)) ∧
        dictGet m' (keyObject i "_Longitude") = some (Value.f 0) ∧
        dictGet m' (keyObject i "_Latitude") = some (Value.f 0) ∧
        (∀ n : ℤ, dictGet m ("x" ++ natStr i) = some (Value.i n) →
          dictGet m' ("x" ++ natStr i) = some (Value.i n)) ∧
        (∀ n : ℤ, dictGet m ("y" ++ natStr i) = some (Value.i n) →
          dictGet m' ("y" ++ natStr i) = some (Value.i n)) ∧
        (∀ n : ℤ, dictGet m ("w" ++ natStr i) = some (Value.i n) →
          dictGet m' ("w" ++ natStr i) = some (Value.i n)) ∧
        (∀ n : ℤ, dictGet m ("h" ++ natStr i) = some (Value.i n) →
          dictGet m' ("h" ++ natStr i) = some (Value.i n)) ∧
        (∀ q : ℚ, PyFloat q → dictGet m ("Center_x" ++ natStr i) = some (Value.f q) →
          dictGet m' ("Center_x" ++ natStr i) = some (Value.f q)) ∧
        (∀ q : ℚ, PyFloat q → dictGet m ("Center_y" ++ natStr i) = some (Value.f q) →
          dictGet m' ("Center_y" ++ natStr i) = some (Value.f q))) ∧
    (∀ k, PlainKey k = true → k ∉ fieldsFloatAgg → k ∉ fieldsIntAgg →
      ∀ v, dictGet m k = some v →
        dictGet m' k = some (Value.s (String.mk (pyStrVal v)))) := by
  unfold restoreRecord at hres
  obtain ⟨m1, h1, hres⟩ := Option.bind_eq_some.mp hres
  obtain ⟨m2, h2, hres⟩ := Option.bind_eq_some.mp hres
  obtain ⟨m3, h3, hres⟩ := Option.bind_eq_some.mp hres
  obtain ⟨m4, h4, hres⟩ := Option.bind_eq_some.mp hres
  obtain ⟨m5, h5, hres⟩ := Option.bind_eq_some.mp hres
  cases Option.some.inj hres
  have hfloatsNodup : fieldsFloatAgg.Nodup := by decide
  have hintsNodup : fieldsIntAgg.Nodup := by decide
  have hdisjFI : ∀ x ∈ fieldsFloatAgg, x ∉ fieldsIntAgg := by decide
  have hdisjIF : ∀ x ∈ fieldsIntAgg, x ∉ fieldsFloatAgg := by decide
  have hpkFloats : ∀ x ∈ fieldsFloatAgg, PlainKey x = true := by decide
  have hpkInts : ∀ x ∈ fieldsIntAgg, PlainKey x = true := by decide
  have traceM2 : ∀ K : String, K ∉ fieldsFloatAgg → K ∉ fieldsIntAgg →
      dictGet m2 K = dictGet (stringifyDict m) K := fun K hf hi2 =>
    (restoreFixed_frame intCastV fieldsIntAgg m1 m2 K h2 hi2).trans
      (restoreFixed_frame floatCastV fieldsFloatAgg _ m1 K h1 hf)
  have traceM4 : ∀ K : String, K ∉ fieldsFloatAgg → K ∉ fieldsIntAgg →
      (∀ j, keyCategoryScore j ≠ K) → (∀ j, keyTagConfidence j ≠ K) →
      dictGet m4 K = dictGet (stringifyDict m) K := by
    intro K hf hi2 hcs hts
    have g3 : dictGet m3 K = dictGet m2 K := countLoop_frame _ _ _ _ _ h3
      (fun idxs m0 m0' hb => castLoop_frame _ _ _ _ _ _ hb (fun j _ => hcs j))
    have g4 : dictGet m4 K = dictGet m3 K := countLoop_frame _ _ _ _ _ h4
      (fun idxs m0 m0' hb => castLoop_frame _ _ _ _ _ _ hb (fun j _ => hts j))
    exact g4.trans (g3.trans (traceM2 K hf hi2))
  have countTrace : ∀ ck : String, ck ∈ fieldsIntAgg → ∀ n : ℤ,
      dictGet m ck = some (Value.i n) →
      dictGet m2 ck = some (Value.i n) ∧ dictGet m3 ck = some (Value.i n) ∧
      dictGet m4 ck = some (Value.i n) := by
    intro ck hck n hn
    obtain ⟨pcs, pts, _⟩ := plain_not_indexed ck (hpkInts ck hck)
    have hs0 : dictGet (stringifyDict m) ck =
        some (Value.s (String.mk (pyStrVal (Value.i n)))) := by
      rw [dictGet_stringifyDict, hn]
      rfl
    have hg1 : dictGet m1 ck = some (Value.s (String.mk (pyStrVal (Value.i n)))) :=
      (restoreFixed_frame floatCastV fieldsFloatAgg _ m1 ck h1 (hdisjIF ck hck)).trans hs0
    obtain ⟨w, hw, hg2⟩ := restoreFixed_act intCastV fieldsIntAgg m1 m2 ck h2
      hintsNodup hck _ hg1
    rw [intCastV_str n] at hw
    cases Option.some.inj hw
    have hg3 : dictGet m3 ck = dictGet m2 ck := countLoop_frame _ _ _ _ _ h3
      (fun idxs m0 m0' hb => castLoop_frame _ _ _ _ _ _ hb (fun j _ => pcs j))
    have hg4 : dictGet m4 ck = dictGet m3 ck := countLoop_frame _ _ _ _ _ h4
      (fun idxs m0 m0' hb => castLoop_frame _ _ _ _ _ _ hb (fun j _ => pts j))
    exact ⟨hg2, hg3.trans hg2, hg4.trans (hg3.trans hg2)⟩
  refine ⟨?_, ?_, ?_, ?_, ?_, ?_⟩
  · intro k hk q hq hv
    have hs0 : dictGet (stringifyDict m) k =
        some (Value.s (String.mk (pyStrVal (Value.f q)))) := by
      rw [dictGet_stringifyDict, hv]
      rfl
    obtain ⟨w, hw, hg1⟩ := restoreFixed_act floatCastV fieldsFloatAgg _ m1 k h1
      hfloatsNodup hk _ hs0
    rw [floatCastV_str q hq] at hw
    cases Option.some.inj hw
    have hg2 : dictGet m2 k = some (Value.f q) :=
      (restoreFixed_frame intCastV fieldsIntAgg m1 m2 k h2 (hdisjFI k hk)).trans hg1
    exact (stages345_frame k (hpkFloats k hk) m2 m3 m4 m' h3 h4 h5).trans hg2
  · intro k hk n hv
    exact (stages345_frame k (hpkInts k hk) m2 m3 m4 m' h3 h4 h5).trans
      ((countTrace k hk n hv).1)
  · intro nc hnc i hi1 hinc q hq hv
    have hnotF : keyCategoryScore i ∉ fieldsFloatAgg :=
      not_mem_of_prefix_free "Category_Score_" (natStr i) _ (by decide)
    have hnotI : keyCategoryScore i ∉ fieldsIntAgg :=
      not_mem_of_prefix_free "Category_Score_" (natStr i) _ (by decide)
    have hv2 : dictGet m2 (keyCategoryScore i) =
        some (Value.s (String.mk (pyStrVal (Value.f q)))) := by
      rw [traceM2 _ hnotF hnotI, dictGet_stringifyDict, hv]
      rfl
    have hc2 : dictGet m2 "Number_of_Categories" = some (Value.i nc) :=
      (countTrace "Number_of_Categories" (by decide) nc hnc).1
    have hcl : castLoop floatCastV keyCategoryScore
        ((List.range nc.toNat).map (fun j => j + 1)) m2 = some m3 :=
      countLoop_act_int _ _ _ _ nc hc2 (by omega) h3
    obtain ⟨w, hw, hg3⟩ := castLoop_act floatCastV keyCategoryScore _ m2 m3 i hcl
      (idxs_nodup _) (mem_idxs hi1 (by omega))
      (fun j _ he => natStr_inj (append_left_cancel he)) _ hv2
    rw [floatCastV_str q hq] at hw
    cases Option.some.inj hw
    have hg4 : dictGet m4 (keyCategoryScore i) = dictGet m3 (keyCategoryScore i) :=
      countLoop_frame _ _ _ _ _ h4 (fun idxs m0 m0' hb =>
        castLoop_frame _ _ _ _ _ _ hb (fun j _ =>
          head_ne_head (head?_append rfl _) (head?_append rfl _) (by decide)))
    have hg5 : dictGet m' (keyCategoryScore i) = dictGet m4 (keyCategoryScore i) := by
      refine countLoop_frame _ _ _ _ _ h5 (fun idxs m0 m0' hb => ?_)
      refine objRestoreLoop_frame _ _ _ _ hb ?_
      intro k0 _ s hs
      simp only [objStepKeys, List.mem_cons, List.not_mem_nil, or_false] at hs
      rcases hs with rfl | rfl | rfl | rfl | rfl | rfl | rfl | rfl | rfl | rfl
      · exact head_ne_head (keyObject_head _ _) (head?_append rfl _) (by decide)
      · exact head_ne_head (keyObject_head _ _) (head?_append rfl _) (by decide)
      · exact head_ne_head (keyObject_head _ _) (head?_append rfl _) (by decide)
      · exact head_ne_head (keyObject_head _ _) (head?_append rfl _) (by decide)
      · exact head_ne_head (head?_append rfl _) (head?_append rfl _) (by decide)
      · exact head_ne_head (head?_append rfl _) (head?_append rfl _) (by decide)
      · exact head_ne_head (head?_append rfl _) (head?_append rfl _) (by decide)
      · exact head_ne_head (head?_append rfl _) (head?_append rfl _) (by decide)
      · exact second_ne (data2_append rfl _) (data2_append rfl _) (by decide)
      · exact second_ne (data2_append rfl _) (data2_append rfl _) (by decide)
    exact hg5.trans (hg4.trans hg3)
  · intro nt hnt i hi1 hint q hq hv
    have hnotF : keyTagConfidence i ∉ fieldsFloatAgg :=
      not_mem_of_prefix_free "Tag_Confidence_" (natStr i) _ (by decide)
    have hnotI : keyTagConfidence i ∉ fieldsIntAgg :=
      not_mem_of_prefix_free "Tag_Confidence_" (natStr i) _ (by decide)
    have hv2 : dictGet m2 (keyTagConfidence i) =
        some (Value.s (String.mk (pyStrVal (Value.f q)))) := by
      rw [traceM2 _ hnotF hnotI, dictGet_stringifyDict, hv]
      rfl
    have hv3 : dictGet m3 (keyTagConfidence i) = dictGet m2 (keyTagConfidence i) :=
      countLoop_frame _ _ _ _ _ h3 (fun idxs m0 m0' hb =>
        castLoop_frame _ _ _ _ _ _ hb (fun j _ =>
          head_ne_head (head?_append rfl _) (head?_append rfl _) (by decide)))
    have hc3 : dictGet m3 "Number_of_Tags" = some (Value.i nt) :=
      (countTrace "Number_of_Tags" (by decide) nt hnt).2.1
    have hcl : castLoop floatCastV keyTagConfidence
        ((List.range nt.toNat).map (fun j => j + 1)) m3 = some m4 :=
      countLoop_act_int _ _ _ _ nt hc3 (by omega) h4
    obtain ⟨w, hw, hg4⟩ := castLoop_act floatCastV keyTagConfidence _ m3 m4 i hcl
      (idxs_nodup _) (mem_idxs hi1 (by omega))
      (fun j _ he => natStr_inj (append_left_cancel he)) _ (hv3.trans hv2)
    rw [floatCastV_str q hq] at hw
    cases Option.some.inj hw
    have hg5 : dictGet m' (keyTagConfidence i) = dictGet m4 (keyTagConfidence i) := by
      refine countLoop_frame _ _ _ _ _ h5 (fun idxs m0 m0' hb => ?_)
      refine objRestoreLoop_frame _ _ _ _ hb ?_
      intro k0 _ s hs
      simp only [objStepKeys, List.mem_cons, List.not_mem_nil, or_false] at hs
      rcases hs with rfl | rfl | rfl | rfl | rfl | rfl | rfl | rfl | rfl | rfl
      · exact head_ne_head (keyObject_head _ _) (head?_append rfl _) (by decide)
      · exact head_ne_head (keyObject_head _ _) (head?_append rfl _) (by decide)
      · exact head_ne_head (keyObject_head _ _) (head?_append rfl _) (by decide)
      · exact head_ne_head (keyObject_head _ _) (head?_append rfl _) (by decide)
      · exact head_ne_head (head?_append rfl _) (head?_append rfl _) (by decide)
      · exact head_ne_head (head?_append rfl _) (head?_append rfl _) (by decide)
      · exact head_ne_head (head?_append rfl _) (head?_append rfl _) (by decide)
      · exact head_ne_head (head?_append rfl _) (head?_append rfl _) (by decide)
      · exact second_ne (data2_append rfl _) (data2_append rfl _) (by decide)
      · exact second_ne (data2_append rfl _) (data2_append rfl _) (by decide)
    exact hg5.trans hg4
  · intro no hno i hi1 hino
    have hc4 : dictGet m4 "Number_of_Objects" = some (Value.i no) :=
      (countTrace "Number_of_Objects" (by decide) no hno).2.2
    have hol : objRestoreLoop ((List.range no.toNat).map (fun j => j + 1)) m4 = some m' :=
      countLoop_act_int _ _ _ _ no hc4 (by omega) h5
    obtain ⟨mp, mp2, hstep, hpre, hpost⟩ := objRestoreLoop_act _ m4 m' i hol
      (idxs_nodup _) (mem_idxs hi1 (by omega))
      (fun j _ hji2 => objStepKeys_disjoint hji2)
    obtain ⟨sConf, sDir, sLon, sLat, sX, sY, sW, sH, sCx, sCy⟩ :=
      objRestoreStep_spec mp mp2 i hstep
    refine ⟨?_, ?_, ?_, ?_, ?_, ?_, ?_, ?_, ?_, ?_⟩
    · intro q hq hv
      have hvm4 : dictGet m4 (keyObject i "_Confidence") =
          some (Value.s (String.mk (pyStrVal (Value.f q)))) := by
        rw [traceM4 _ (keyObject_not_mem i _ _ (by decide))
          (keyObject_not_mem i _ _ (by decide))
          (fun j => head_ne_head (head?_append rfl _) (keyObject_head _ _) (by decide))
          (fun j => head_ne_head (head?_append rfl _) (keyObject_head _ _) (by decide)),
          dictGet_stringifyDict, hv]
        rfl
      obtain ⟨w, hw, hgp⟩ := sConf _ ((hpre _ (by simp [objStepKeys])).trans hvm4)
      rw [floatCastV_str q hq] at hw
      cases Option.some.inj hw
      exact (hpost _ (by simp [objStepKeys])).trans hgp
    · intro q hq hv
      have hvm4 : dictGet m4 (keyObject i "_Direction") =
          some (Value.s (String.mk (pyStrVal (Value.f q)))) := by
        rw [traceM4 _ (keyObject_not_mem i _ _ (by decide))
          (keyObject_not_mem i _ _ (by decide))
          (fun j => head_ne_head (head?_append rfl _) (keyObject_head _ _) (by decide))
          (fun j => head_ne_head (head?_append rfl _) (keyObject_head _ _) (by decide)),
          dictGet_stringifyDict, hv]
        rfl
      obtain ⟨w, hw, hgp⟩ := sDir _ ((hpre _ (by simp [objStepKeys])).trans hvm4)
      rw [floatCastV_str q hq] at hw
      cases Option.some.inj hw
      exact (hpost _ (by simp [objStepKeys])).trans hgp
    · exact (hpost _ (by simp [objStepKeys])).trans sLon
    · exact (hpost _ (by simp [objStepKeys])).trans sLat
    · intro n hv
      have hvm4 : dictGet m4 ("x" ++ natStr i) =
          some (Value.s (String.mk (pyStrVal (Value.i n)))) := by
        rw [traceM4 _ (not_mem_of_prefix_free "x" _ _ (by decide))
          (not_mem_of_prefix_free "x" _ _ (by decide))
          (fun j => head_ne_head (head?_append rfl _) (head?_append rfl _) (by decide))
          (fun j => head_ne_head (head?_append rfl _) (head?_append rfl _) (by decide)),
          dictGet_stringifyDict, hv]
        rfl
      obtain ⟨w, hw, hgp⟩ := sX _ ((hpre _ (by simp [objStepKeys])).trans hvm4)
      rw [intCastV_str n] at hw
      cases Option.some.inj hw
      exact (hpost _ (by simp [objStepKeys])).trans hgp
    · intro n hv
      have hvm4 : dictGet m4 ("y" ++ natStr i) =
          some (Value.s (String.mk (pyStrVal (Value.i n)))) := by
        rw [traceM4 _ (not_mem_of_prefix_free "y" _ _ (by decide))
          (not_mem_of_prefix_free "y" _ _ (by decide))
          (fun j => head_ne_head (head?_append rfl _) (head?_append rfl _) (by decide))
          (fun j => head_ne_head (head?_append rfl _) (head?_append rfl _) (by decide)),
          dictGet_stringifyDict, hv]
        rfl
      obtain ⟨w, hw, hgp⟩ := sY _ ((hpre _ (by simp [objStepKeys])).trans hvm4)
      rw [intCastV_str n] at hw
      cases Option.some.inj hw
      exact (hpost _ (by simp [objStepKeys])).trans hgp
    · intro n hv
      have hvm4 : dictGet m4 ("w" ++ natStr i) =
          some (Value.s (String.mk (pyStrVal (Value.i n)))) := by
        rw [traceM4 _ (not_mem_of_prefix_free "w" _ _ (by decide))
          (not_mem_of_prefix_free "w" _ _ (by decide))
          (fun j => head_ne_head (head?_append rfl _) (head?_append rfl _) (by decide))
          (fun j => head_ne_head (head?_append rfl _) (head?_append rfl _) (by decide)),
          dictGet_stringifyDict, hv]
        rfl
      obtain ⟨w, hw, hgp⟩ := sW _ ((hpre _ (by simp [objStepKeys])).trans hvm4)
      rw [intCastV_str n] at hw
      cases Option.some.inj hw
      exact (hpost _ (by simp [objStepKeys])).trans hgp
    · intro n hv
      have hvm4 : dictGet m4 ("h" ++ natStr i) =
          some (Value.s (String.mk (pyStrVal (Value.i n)))) := by
        rw [traceM4 _ (not_mem_of_prefix_free "h" _ _ (by decide))
          (not_mem_of_prefix_free "h" _ _ (by decide))
          (fun j => head_ne_head (head?_append rfl _) (head?_append rfl _) (by decide))
          (fun j => head_ne_head (head?_append rfl _) (head?_append rfl _) (by decide)),
          dictGet_stringifyDict, hv]
        rfl
      obtain ⟨w, hw, hgp⟩ := sH _ ((hpre _ (by simp [objStepKeys])).trans hvm4)
      rw [intCastV_str n] at hw
      cases Option.some.inj hw
      exact (hpost _ (by simp [objStepKeys])).trans hgp
    · intro q hq hv
      have hvm4 : dictGet m4 ("Center_x" ++ natStr i) =
          some (Value.s (String.mk (pyStrVal (Value.f q)))) := by
        rw [traceM4 _ (not_mem_of_prefix_free "Center_x" _ _ (by decide))
          (not_mem_of_prefix_free "Center_x" _ _ (by decide))
          (fun j => second_ne (data2_append rfl _) (data2_append rfl _) (by decide))
          (fun j => head_ne_head (head?_append rfl _) (head?_append rfl _) (by decide)),
          dictGet_stringifyDict, hv]
        rfl
      obtain ⟨w, hw, hgp⟩ := sCx _ ((hpre _ (by simp [objStepKeys])).trans hvm4)
      rw [floatCastV_str q hq] at hw
      cases Option.some.inj hw
      exact (hpost _ (by simp [objStepKeys])).trans hgp
    · intro q hq hv
      have hvm4 : dictGet m4 ("Center_y" ++ natStr i) =
          some (Value.s (String.mk (pyStrVal (Value.f q)))) := by
        rw [traceM4 _ (not_mem_of_prefix_free "Center_y" _ _ (by decide))
          (not_mem_of_prefix_free "Center_y" _ _ (by decide))
          (fun j => second_ne (data2_append rfl _) (data2_append rfl _) (by decide))
          (fun j => head_ne_head (head?_append rfl _) (head?_append rfl _) (by decide)),
          dictGet_stringifyDict, hv]
        rfl
      obtain ⟨w, hw, hgp⟩ := sCy _ ((hpre _ (by simp [objStepKeys])).trans hvm4)
      rw [floatCastV_str q hq] at hw
      cases Option.some.inj hw
      exact (hpost _ (by simp [objStepKeys])).trans hgp
  · intro k hpk hkf hki v hv
    have hs0 : dictGet (stringifyDict m) k = some (Value.s (String.mk (pyStrVal v))) := by
      rw [dictGet_stringifyDict, hv]
      rfl
    exact (stages345_frame k hpk m2 m3 m4 m' h3 h4 h5).trans
      ((traceM2 k hkf hki).trans hs0)

theorem c6_witness :
    (restoreRecord (stringifyDict wRecTag)).map (fun r => dictGet r "Tag_Confidence_1") =
      some (some (Value.f (1/2))) := by
  cases hr : restoreRecord (stringifyDict wRecTag) with
  | none => exact absurd hr (by decide)
  | some mr =>
    have h := (c6_amended wRecTag mr hr).2.2.2.1 1 (by decide) 1 (by decide) (by decide)
      (1/2) (⟨by decide, by decide⟩) (by decide)
    have h2 : dictGet mr "Tag_Confidence_1" = some (Value.f (1/2)) := h
    show some (dictGet mr "Tag_Confidence_1") = some (some (Value.f (1/2)))
    rw [h2]


/-! ### Slice-loop lemmas (claims C2, C5) -/

theorem exbind_ok {α β : Type} {x : Except PyErr α} {fn : α → Except PyErr β} {b : β}
    (h : x.bind fn = Except.ok b) : ∃ a, x = Except.ok a ∧ fn a = Except.ok b := by
  cases x with
  | error e => exact absurd h (by simp [Except.bind])
  | ok a => exact ⟨a, rfl, h⟩

theorem isPrefixOf_append2 (p a b : String) :
    p.data.isPrefixOf ((p ++ a) ++ b).data = true := by
  rw [String.append_assoc]
  exact prefix_isPrefixOf p _

theorem isPrefixOf_append3 (p a b c : String) :
    p.data.isPrefixOf (((p ++ a) ++ b) ++ c).data = true := by
  rw [String.append_assoc, String.append_assoc]
  exact prefix_isPrefixOf p _

theorem parentWrites_keys (pre : String) (po : Option RParent) :
    ∀ kv ∈ parentWrites pre po, ∃ sfx : String, kv.1 = pre ++ sfx := by
  cases po with
  | none =>
    intro kv hkv
    exact absurd hkv (List.not_mem_nil kv)
  | some p1 =>
    intro kv hkv
    unfold parentWrites at hkv
    rcases List.mem_cons.mp hkv with rfl | hkv
    · exact ⟨"_Parent_1", rfl⟩
    rcases List.mem_cons.mp hkv with rfl | hkv
    · exact ⟨"_Parent_1_Confidence", rfl⟩
    cases hp2 : p1.parent with
    | none =>
      rw [hp2] at hkv
      exact absurd hkv (List.not_mem_nil kv)
    | some p2 =>
      rw [hp2] at hkv
      rcases List.mem_cons.mp hkv with rfl | hkv
      · exact ⟨"_Parent_2", rfl⟩
      rcases List.mem_cons.mp hkv with rfl | hkv
      · exact ⟨"_Parent_2_Confidence", rfl⟩
      cases hp3 : p2.parent with
      | none =>
        rw [hp3] at hkv
        exact absurd hkv (List.not_mem_nil kv)
      | some p3 =>
        rw [hp3] at hkv
        rcases List.mem_cons.mp hkv with rfl | hkv
        · exact ⟨"_Parent_3", rfl⟩
        rcases List.mem_cons.mp hkv with rfl | hkv
        · exact ⟨"_Parent_3_Confidence", rfl⟩
        cases hp4 : p3.parent with
        | none =>
          rw [hp4] at hkv
          exact absurd hkv (List.not_mem_nil kv)
        | some p4 =>
          rw [hp4] at hkv
          rcases List.mem_cons.mp hkv with rfl | hkv
          · exact ⟨"_Parent_4", rfl⟩
          rcases List.mem_cons.mp hkv with rfl | hkv
          · exact ⟨"_Parent_4_Confidence", rfl⟩
          exact absurd hkv (List.not_mem_nil kv)

theorem respW_keys_shape (resp : Response) (ws : List (String × Value))
    (hws : responseWrites resp = Except.ok ws) :
    ∀ kv ∈ ws, RespKeyShape kv.1 = true := by
  unfold responseWrites at hws
  cases hd : resp.description with
  | none =>
    rw [hd] at hws
    exact absurd hws (by simp)
  | some desc =>
    rw [hd] at hws
    have hws2 := Except.ok.inj hws
    subst hws2
    intro kv hkv
    simp only [List.mem_append] at hkv
    rcases hkv with ((((((h1 | h2) | h3) | h4) | h5) | h6) | h7) | h8
    · cases hcc : desc.captions with
      | none =>
        rw [hcc] at h1
        exact absurd h1 (List.not_mem_nil kv)
      | some cl =>
        rw [hcc] at h1
        cases cl with
        | nil => exact absurd h1 (List.not_mem_nil kv)
        | cons c cs =>
          have h2 : kv ∈ [("Caption", Value.s c.text),
              ("Caption_Confidence", Value.f c.confidence)] := h1
          rcases List.mem_cons.mp h2 with rfl | h3
          · exact (by decide : RespKeyShape "Caption" = true)
          rcases List.mem_cons.mp h3 with rfl | h4
          · exact (by decide : RespKeyShape "Caption_Confidence" = true)
          exact absurd h4 (List.not_mem_nil kv)
    · cases hmi : resp.metadata with
      | none =>
        rw [hmi] at h2
        exact absurd h2 (List.not_mem_nil kv)
      | some mi =>
        rw [hmi] at h2
        rcases List.mem_cons.mp h2 with rfl | h3
        · exact (by decide : RespKeyShape "Image_Width" = true)
        rcases List.mem_cons.mp h3 with rfl | h4
        · exact (by decide : RespKeyShape "Image_Height" = true)
        rcases List.mem_cons.mp h4 with rfl | h5
        · exact (by decide : RespKeyShape "Image Format" = true)
        exact absurd h5 (List.not_mem_nil kv)
    · cases hit : resp.imageType with
      | none =>
        rw [hit] at h3
        exact absurd h3 (List.not_mem_nil kv)
      | some it =>
        rw [hit] at h3
        rcases List.mem_cons.mp h3 with rfl | h4
        · exact (by decide : RespKeyShape "Clip_Art_Type" = true)
        rcases List.mem_cons.mp h4 with rfl | h5
        · exact (by decide : RespKeyShape "Line_Drawing_Type" = true)
        exact absurd h5 (List.not_mem_nil kv)
    · cases hcol : resp.color with
      | none =>
        rw [hcol] at h4
        exact absurd h4 (List.not_mem_nil kv)
      | some c =>
        rw [hcol] at h4
        unfold colorWrites at h4
        simp only [List.mem_append, List.mem_cons, List.not_mem_nil, or_false] at h4
        rcases h4 with (rfl | rfl) | h5
        · exact (by decide : RespKeyShape "Dominant_Color_Foreground" = true)
        · exact (by decide : RespKeyShape "Dominant_Color_Background" = true)
        cases hdc : c.dominantColors with
        | nil =>
          rw [hdc] at h5
          exact absurd h5 (List.not_mem_nil kv)
        | cons d ds =>
          cases hds : ds with
          | nil =>
            rw [hdc, hds] at h5
            rcases List.mem_cons.mp h5 with rfl | h6
            · exact (by decide : RespKeyShape "Dominant_Colors" = true)
            exact absurd h6 (List.not_mem_nil kv)
          | cons d2 ds2 =>
            rw [hdc, hds] at h5
            rcases List.mem_cons.mp h5 with rfl | h6
            · exact (by decide : RespKeyShape "Dominant_Colors" = true)
            exact absurd h6 (List.not_mem_nil kv)
    · cases hcat : resp.categories with
      | none =>
        rw [hcat] at h5
        exact absurd h5 (List.not_mem_nil kv)
      | some cats =>
        rw [hcat] at h5
        rcases List.mem_cons.mp h5 with rfl | h6
        · exact (by decide : RespKeyShape "Number_of_Categories" = true)
        obtain ⟨pr, _, hkv2⟩ := List.mem_flatMap.mp h6
        obtain ⟨kv0, _, hkve⟩ := List.mem_map.mp hkv2
        rw [← hkve]
        simp [RespKeyShape, isPrefixOf_append3]
    · cases htag : resp.tags with
      | none =>
        rw [htag] at h6
        exact absurd h6 (List.not_mem_nil kv)
      | some tags =>
        rw [htag] at h6
        rcases List.mem_cons.mp h6 with rfl | h7
        · exact (by decide : RespKeyShape "Number_of_Tags" = true)
        obtain ⟨pr, _, hkv2⟩ := List.mem_flatMap.mp h7
        obtain ⟨kv0, _, hkve⟩ := List.mem_map.mp hkv2
        rw [← hkve]
        simp [RespKeyShape, isPrefixOf_append3]
    · cases hdt : desc.tags with
      | none =>
        rw [hdt] at h7
        exact absurd h7 (List.not_mem_nil kv)
      | some ts =>
        rw [hdt] at h7
        rcases List.mem_cons.mp h7 with rfl | h8
        · exact (by decide : RespKeyShape "Description_Tags" = true)
        exact absurd h8 (List.not_mem_nil kv)
    · cases hob : resp.objects with
      | none =>
        rw [hob] at h8
        exact absurd h8 (List.not_mem_nil kv)
      | some objs =>
        rw [hob] at h8
        rcases List.mem_cons.mp h8 with rfl | h9
        · exact (by decide : RespKeyShape "Number_of_Objects" = true)
        obtain ⟨pr, _, hkv2⟩ := List.mem_flatMap.mp h9
        unfold objectWrites at hkv2
        simp only [List.mem_append, List.mem_cons, List.not_mem_nil, or_false] at hkv2
        rcases hkv2 with (rfl | rfl | rfl | rfl | rfl | rfl | rfl | rfl | rfl | rfl | rfl) | hpw
        · simp [RespKeyShape, prefix_isPrefixOf]
        · simp [RespKeyShape, isPrefixOf_append2]
        · simp [RespKeyShape, isPrefixOf_append2]
        · simp [RespKeyShape, isPrefixOf_append2]
        · simp [RespKeyShape, isPrefixOf_append2]
        · simp [RespKeyShape, prefix_isPrefixOf]
        · simp [RespKeyShape, prefix_isPrefixOf]
        · simp [RespKeyShape, prefix_isPrefixOf]
        · simp [RespKeyShape, prefix_isPrefixOf]
        · simp [RespKeyShape, prefix_isPrefixOf]
        · simp [RespKeyShape, prefix_isPrefixOf]
        · obtain ⟨sfx, hsfx⟩ := parentWrites_keys _ _ kv hpw
          rw [hsfx]
          simp [RespKeyShape, isPrefixOf_append2]


theorem respW_key_ne (resp : Response) (ws : List (String × Value))
    (hws : responseWrites resp = Except.ok ws) (t : String) (ht : RespKeyShape t = false) :
    ∀ kv ∈ ws, kv.1 ≠ t := by
  intro kv hkv he
  have h := respW_keys_shape resp ws hws kv hkv
  rw [he, ht] at h
  exact absurd h (by decide)

theorem sliceStep_elim (nm url cont : String) (resp : Except PyErr Response) (cmeta : Dict)
    (ncard : ℕ) (area : Area) (p : Dict × Upload)
    (h : sliceStep nm url cont resp cmeta ncard area = Except.ok p) :
    ∃ r, resp = Except.ok r ∧ p.2.dict = stringifyDict p.1 ∧ p.2.box = area ∧
      (∀ k, k ∉ sliceWriteKeys r → dictGet p.1 k = dictGet cmeta k) ∧
      (∀ q : ℚ, dictGet cmeta "Direction" = some (Value.f q) →
        dictGet p.1 "Direction" = some (Value.f q) ∧
        dictGet p.1 "Cardinal_Direction" = some (Value.f (sliceDirection q ncard)) ∧
        ∃ lab, check_cardinality (sliceDirection q ncard) = some lab ∧
          p.2.name = cardinalImgNameOf nm ncard lab) := by
  unfold sliceStep at h
  obtain ⟨baseV, hbv, h⟩ := exbind_ok h
  obtain ⟨base, hbase, h⟩ := exbind_ok h
  obtain ⟨label, hlab, h⟩ := exbind_ok h
  obtain ⟨r, hr, h⟩ := exbind_ok h
  obtain ⟨ws, hws, h⟩ := exbind_ok h
  obtain ⟨bounds, hbnd, h⟩ := exbind_ok h
  cases Except.ok.inj h
  refine ⟨r, hr, rfl, rfl, ?_, ?_⟩
  · intro k hk
    show dictGet (applyWrites cmeta _) k = dictGet cmeta k
    refine applyWrites_not_mem _ _ _ ?_
    intro kv hkv he
    apply hk
    unfold sliceWriteKeys
    rw [hws, ← he]
    have h2 := List.mem_map_of_mem Prod.fst hkv
    rw [List.map_append] at h2
    exact h2
  · intro q hq
    rw [hq] at hbv
    cases Except.ok.inj hbv
    cases Except.ok.inj hbase
    have hlabel : check_cardinality (sliceDirection base ncard) = some label := by
      unfold labelOf at hlab
      cases hcc : check_cardinality (sliceDirection base ncard) with
      | none =>
        rw [hcc] at hlab
        exact absurd hlab (by simp)
      | some lab2 =>
        rw [hcc] at hlab
        rw [Except.ok.inj hlab]
    have hwnotdir : ∀ kv ∈ ws, kv.1 ≠ ("Direction" : String) :=
      respW_key_ne r ws hws _ (by decide)
    have hwnotcd : ∀ kv ∈ ws, kv.1 ≠ ("Cardinal_Direction" : String) :=
      respW_key_ne r ws hws _ (by decide)
    refine ⟨?_, ?_, label, hlabel, rfl⟩
    · show dictGet (applyWrites cmeta _) "Direction" = some (Value.f base)
      rw [applyWrites_not_mem _ _ _ ?hne]
      · exact hq
      case hne =>
        intro kv hkv
        rcases List.mem_append.mp hkv with hf | hw
        · simp only [List.mem_cons, List.not_mem_nil, or_false] at hf
          rcases hf with rfl | rfl | rfl | rfl | rfl
          · exact (by decide : ("Cardinal_Image_Name" : String) ≠ "Direction")
          · exact (by decide : ("Cardinal_Image_URL" : String) ≠ "Direction")
          · exact (by decide : ("Cardinal_Number" : String) ≠ "Direction")
          · exact (by decide : ("Cardinal_Direction" : String) ≠ "Direction")
          · exact (by decide : ("Cardinal_Direction_Label" : String) ≠ "Direction")
        · exact hwnotdir kv hw
    · show dictGet (applyWrites cmeta
        ([("Cardinal_Image_Name", Value.s (cardinalImgNameOf nm ncard label)),
          ("Cardinal_Image_URL",
            Value.s (url ++ "/" ++ cont ++ "/" ++ cardinalImgNameOf nm ncard label)),
          ("Cardinal_Number", Value.i ((ncard : ℤ) + 1)),
          ("Cardinal_Direction", Value.f (sliceDirection base ncard)),
          ("Cardinal_Direction_Label", Value.s label)] ++ ws)) "Cardinal_Direction" =
        some (Value.f (sliceDirection base ncard))
      rw [show applyWrites cmeta
          ([("Cardinal_Image_Name", Value.s (cardinalImgNameOf nm ncard label)),
            ("Cardinal_Image_URL",
              Value.s (url ++ "/" ++ cont ++ "/" ++ cardinalImgNameOf nm ncard label)),
            ("Cardinal_Number", Value.i ((ncard : ℤ) + 1)),
            ("Cardinal_Direction", Value.f (sliceDirection base ncard)),
            ("Cardinal_Direction_Label", Value.s label)] ++ ws) =
          applyWrites (applyWrites cmeta
            [("Cardinal_Image_Name", Value.s (cardinalImgNameOf nm ncard label)),
             ("Cardinal_Image_URL",
               Value.s (url ++ "/" ++ cont ++ "/" ++ cardinalImgNameOf nm ncard label)),
             ("Cardinal_Number", Value.i ((ncard : ℤ) + 1)),
             ("Cardinal_Direction", Value.f (sliceDirection base ncard)),
             ("Cardinal_Direction_Label", Value.s label)]) ws
        from List.foldl_append _ _ _ _]
      rw [applyWrites_not_mem _ _ _ (fun kv hkv => hwnotcd kv hkv)]
      show dictGet (dictSet (dictSet _ "Cardinal_Direction" _) "Cardinal_Direction_Label" _)
        "Cardinal_Direction" = _
      rw [dictGet_dictSet_ne _ _ _ _ (by decide), dictGet_dictSet_self]

theorem runSlices_nil (nm url cont : String) (respOf : ℕ → Except PyErr Response)
    (cmeta : Dict) (n0 : ℕ) : runSlices nm url cont respOf cmeta n0 [] = ([], none) := rfl

theorem runSlices_cons_error (nm url cont : String) (respOf : ℕ → Except PyErr Response)
    (cmeta : Dict) (n0 : ℕ) (area : Area) (rest : List Area) (e : PyErr)
    (hg : sliceStep nm url cont (respOf n0) cmeta n0 area = Except.error e) :
    runSlices nm url cont respOf cmeta n0 (area :: rest) = ([], some e) := by
  conv_lhs => unfold runSlices
  rw [hg]

theorem runSlices_cons_ok (nm url cont : String) (respOf : ℕ → Except PyErr Response)
    (cmeta : Dict) (n0 : ℕ) (area : Area) (rest : List Area) (c' : Dict) (up : Upload)
    (hg : sliceStep nm url cont (respOf n0) cmeta n0 area = Except.ok (c', up)) :
    runSlices nm url cont respOf cmeta n0 (area :: rest) =
      (up :: (runSlices nm url cont respOf c' (n0 + 1) rest).1,
       (runSlices nm url cont respOf c' (n0 + 1) rest).2) := by
  conv_lhs => unfold runSlices
  rw [hg]


theorem runSlices_keep (nm url cont : String) (respOf : ℕ → Except PyErr Response) :
    ∀ (ars : List Area) (cmeta : Dict) (n0 : ℕ) (b : ℕ) (k : String) (u : Upload),
    ((runSlices nm url cont respOf cmeta n0 ars).1).get? b = some u →
    (∀ m r, n0 ≤ m → m ≤ n0 + b → respOf m = Except.ok r → k ∉ sliceWriteKeys r) →
    dictGet u.dict k = dictGet (stringifyDict cmeta) k := by
  intro ars
  induction ars with
  | nil =>
    intro cmeta n0 b k u hu _
    rw [runSlices_nil] at hu
    exact absurd hu (by simp)
  | cons area rest ih =>
    intro cmeta n0 b k u hu hav
    cases hg : sliceStep nm url cont (respOf n0) cmeta n0 area with
    | error e =>
      rw [runSlices_cons_error nm url cont respOf cmeta n0 area rest e hg] at hu
      exact absurd hu (by simp)
    | ok p =>
      have hg2 : sliceStep nm url cont (respOf n0) cmeta n0 area = Except.ok (p.1, p.2) := hg
      obtain ⟨r, hr, hdict, _, hframe, _⟩ := sliceStep_elim nm url cont _ cmeta n0 area p hg
      have hkr : k ∉ sliceWriteKeys r := hav n0 r (le_refl n0) (by omega) hr
      rw [runSlices_cons_ok nm url cont respOf cmeta n0 area rest p.1 p.2 hg2] at hu
      cases b with
      | zero =>
        cases Option.some.inj hu
        rw [hdict, dictGet_stringifyDict, dictGet_stringifyDict, hframe k hkr]
      | succ b' =>
        have hu2 : ((runSlices nm url cont respOf p.1 (n0 + 1) rest).1).get? b' = some u := hu
        rw [ih p.1 (n0 + 1) b' k u hu2
            (fun m r2 h1 h2 hr2 => hav m r2 (by omega) (by omega) hr2),
          dictGet_stringifyDict, dictGet_stringifyDict, hframe k hkr]

theorem runSlices_persist (nm url cont : String) (respOf : ℕ → Except PyErr Response) :
    ∀ (ars : List Area) (cmeta : Dict) (n0 : ℕ) (a b : ℕ) (ua ub : Upload) (k : String),
    a < b →
    ((runSlices nm url cont respOf cmeta n0 ars).1).get? a = some ua →
    ((runSlices nm url cont respOf cmeta n0 ars).1).get? b = some ub →
    (∀ m r, n0 + a < m → m ≤ n0 + b → respOf m = Except.ok r → k ∉ sliceWriteKeys r) →
    dictGet ub.dict k = dictGet ua.dict k := by
  intro ars
  induction ars with
  | nil =>
    intro cmeta n0 a b ua ub k hab ha hb hav
    rw [runSlices_nil] at ha
    exact absurd ha (by simp)
  | cons area rest ih =>
    intro cmeta n0 a b ua ub k hab ha hb hav
    cases hg : sliceStep nm url cont (respOf n0) cmeta n0 area with
    | error e =>
      rw [runSlices_cons_error nm url cont respOf cmeta n0 area rest e hg] at ha
      exact absurd ha (by simp)
    | ok p =>
      have hg2 : sliceStep nm url cont (respOf n0) cmeta n0 area = Except.ok (p.1, p.2) := hg
      obtain ⟨r, hr, hdict, _, hframe, _⟩ := sliceStep_elim nm url cont _ cmeta n0 area p hg
      rw [runSlices_cons_ok nm url cont respOf cmeta n0 area rest p.1 p.2 hg2] at ha hb
      cases a with
      | zero =>
        cases b with
        | zero => exact absurd hab (by omega)
        | succ b' =>
          cases Option.some.inj ha
          have hb2 : ((runSlices nm url cont respOf p.1 (n0 + 1) rest).1).get? b' = some ub := hb
          rw [hdict]
          exact runSlices_keep nm url cont respOf rest p.1 (n0 + 1) b' k ub hb2
            (fun m r2 h1 h2 hr2 => hav m r2 (by omega) (by omega) hr2)
      | succ a' =>
        cases b with
        | zero => exact absurd hab (by omega)
        | succ b' =>
          have ha2 : ((runSlices nm url cont respOf p.1 (n0 + 1) rest).1).get? a' = some ua := ha
          have hb2 : ((runSlices nm url cont respOf p.1 (n0 + 1) rest).1).get? b' = some ub := hb
          exact ih p.1 (n0 + 1) a' b' ua ub k (by omega) ha2 hb2
            (fun m r2 h1 h2 hr2 => hav m r2 (by omega) (by omega) hr2)

/-- C2: the eight per-slice records are views of one shared mutable mapping
(`cmeta = {}` at line 477 is immediately rebound to `cmeta = metaString`, and
every slice writes into that same dictionary before it is stringified and
persisted at lines 582-591).  Hence a key `k` present in the record persisted
for slice `a` and not written by any slice in `(a, b]` still appears, with its
slice-`a` value, in the record persisted for slice `b`. -/
theorem c2_shared_record_aliasing (nm url cont : String)
    (respOf : ℕ → Except PyErr Response) (cmeta : Dict) (ups : List Upload)
    (err : Option PyErr) (hrun : runSlices nm url cont respOf cmeta 0 areas = (ups, err))
    (a b : ℕ) (ua ub : Upload) (hab : a < b)
    (ha : ups.get? a = some ua) (hb : ups.get? b = some ub) (k : String)
    (havoid : ∀ m r, a < m → m ≤ b → respOf m = Except.ok r → k ∉ sliceWriteKeys r) :
    dictGet ub.dict k = dictGet ua.dict k := by
  have h1 : ups = (runSlices nm url cont respOf cmeta 0 areas).1 := by rw [hrun]
  subst h1
  exact runSlices_persist nm url cont respOf areas cmeta 0 a b ua ub k hab ha hb
    (fun m r hm1 hm2 hr => havoid m r (by omega) (by omega) hr)

theorem c2_witness :
    (((runSlices "img.jpg" "u" "c" wRespOf wMeta 0 areas).1).get? 1).map
        (fun u => dictGet u.dict "Object_1") =
      (((runSlices "img.jpg" "u" "c" wRespOf wMeta 0 areas).1).get? 0).map
        (fun u => dictGet u.dict "Object_1") := by
  cases h0 : ((runSlices "img.jpg" "u" "c" wRespOf wMeta 0 areas).1).get? 0 with
  | none => exact absurd h0 (by decide)
  | some ua =>
    cases h1 : ((runSlices "img.jpg" "u" "c" wRespOf wMeta 0 areas).1).get? 1 with
    | none => exact absurd h1 (by decide)
    | some ub =>
      have h2 := c2_shared_record_aliasing "img.jpg" "u" "c" wRespOf wMeta _ _ rfl 0 1
        ua ub (by decide) h0 h1 "Object_1" ?hav
      case hav =>
        intro m r hm1 hm2 hr
        interval_cases m
        cases Except.ok.inj hr
        decide
      show some (dictGet ub.dict "Object_1") = some (dictGet ua.dict "Object_1")
      rw [h2]


theorem runSlices_boxes (nm url cont : String) (respOf : ℕ → Except PyErr Response) :
    ∀ (ars : List Area) (cmeta : Dict) (n0 : ℕ),
    ((runSlices nm url cont respOf cmeta n0 ars).1).map Upload.box =
      ars.take ((runSlices nm url cont respOf cmeta n0 ars).1).length ∧
    (((runSlices nm url cont respOf cmeta n0 ars).1).length = ars.length ∨
      ((runSlices nm url cont respOf cmeta n0 ars).2).isSome = true) := by
  intro ars
  induction ars with
  | nil =>
    intro cmeta n0
    exact ⟨rfl, Or.inl rfl⟩
  | cons area rest ih =>
    intro cmeta n0
    cases hg : sliceStep nm url cont (respOf n0) cmeta n0 area with
    | error e =>
      rw [runSlices_cons_error nm url cont respOf cmeta n0 area rest e hg]
      exact ⟨rfl, Or.inr rfl⟩
    | ok p =>
      have hg2 : sliceStep nm url cont (respOf n0) cmeta n0 area = Except.ok (p.1, p.2) := hg
      obtain ⟨r, _, _, hbox, _, _⟩ := sliceStep_elim nm url cont _ cmeta n0 area p hg
      rw [runSlices_cons_ok nm url cont respOf cmeta n0 area rest p.1 p.2 hg2]
      obtain ⟨ihm, ihl⟩ := ih p.1 (n0 + 1)
      constructor
      · simp only [List.map_cons, List.length_cons, List.take_succ_cons]
        rw [hbox, ihm]
      · rcases ihl with hl | hs
        · left
          simp [hl]
        · right
          exact hs

/-- C5: the enrichment stage slices each source image over the eight fixed
crop boxes `(i*1000, 1550, i*1000+1000, 2550)` for `i = 0..7` (the `i`-th
upload carries the `i`-th box, and a full run yields all 8 unless an exception
aborts the loop); the slice direction is
`check_degrees(check_degrees(Direction, 22.5), ncard*45.0)`, which for a base
direction of 0 gives 22.5, 67.5, 112.5, 157.5, 202.5, 247.5, 292.5, 337.5,
and each successful slice writes exactly that direction to
`Cardinal_Direction` and derives its blob name from its cardinality label. -/
theorem c5_eight_slices (nm url cont : String) (respOf : ℕ → Except PyErr Response)
    (cmeta : Dict) :
    areas = [(0, 1550, 1000, 2550), (1000, 1550, 2000, 2550), (2000, 1550, 3000, 2550),
      (3000, 1550, 4000, 2550), (4000, 1550, 5000, 2550), (5000, 1550, 6000, 2550),
      (6000, 1550, 7000, 2550), (7000, 1550, 8000, 2550)] ∧
    (∀ base : ℚ, ∀ i : ℕ,
      sliceDirection base i = check_degrees (check_degrees base 22.5) ((i : ℚ) * 45.0)) ∧
    (List.range 8).map (fun i => sliceDirection 0 i) =
      [22.5, 67.5, 112.5, 157.5, 202.5, 247.5, 292.5, 337.5] ∧
    ((runSlices nm url cont respOf cmeta 0 areas).1).map Upload.box =
      areas.take ((runSlices nm url cont respOf cmeta 0 areas).1).length ∧
    (((runSlices nm url cont respOf cmeta 0 areas).1).length = 8 ∨
      ((runSlices nm url cont respOf cmeta 0 areas).2).isSome = true) ∧
    (∀ (ncard : ℕ) (area : Area) (p : Dict × Upload) (q : ℚ),
      sliceStep nm url cont (respOf ncard) cmeta ncard area = Except.ok p →
      dictGet cmeta "Direction" = some (Value.f q) →
      dictGet p.1 "Cardinal_Direction" = some (Value.f (sliceDirection q ncard)) ∧
      ∃ lab, check_cardinality (sliceDirection q ncard) = some lab ∧
        p.2.name = cardinalImgNameOf nm ncard lab) := by
  obtain ⟨hmap, hlen⟩ := runSlices_boxes nm url cont respOf areas cmeta 0
  refine ⟨by decide, fun base i => rfl, by decide, hmap, ?_, ?_⟩
  · rcases hlen with hl | hs
    · exact Or.inl (hl.trans (by decide))
    · exact Or.inr hs
  · intro ncard area p q h hq
    obtain ⟨r, _, _, _, _, hdir⟩ := sliceStep_elim nm url cont _ cmeta ncard area p h
    obtain ⟨_, hcd, lab, hlab, hname⟩ := hdir q hq
    exact ⟨hcd, lab, hlab, hname⟩


/-! ### Batch error-handling (claim C7) -/

/-- C7: the whole per-image body runs inside one recovery boundary: the
function never re-raises, logs the first exception's message exactly once
(and nothing on success), and the batch loop maps every blob to its own
independent result, so one blob's failure cannot prevent the processing of
the next. -/
theorem c7_single_recovery (url cont : String) (bs : List BlobInput) :
    (processBatch url cont bs).length = bs.length ∧
    (∀ i : ℕ, (processBatch url cont bs).get? i =
      (bs.get? i).map (process_cardinal_images url cont)) ∧
    (∀ b : BlobInput, (process_cardinal_images url cont b).logs =
      match (processBody url cont b).2 with
      | some e => [e.msg]
      | none => []) ∧
    (∀ b : BlobInput, ((processBody url cont b).2).isSome = true →
      (process_cardinal_images url cont b).logs.length = 1) ∧
    (∀ b : BlobInput, (processBody url cont b).2 = none →
      (process_cardinal_images url cont b).logs = []) ∧
    (process_cardinal_images url cont wBlobFail).logs =
      [(PyErr.keyError "Direction").msg] ∧
    (process_cardinal_images url cont wBlobFail).uploads = [] := by
  refine ⟨by simp [processBatch], ?_, fun b => rfl, ?_, ?_, rfl, rfl⟩
  · intro i
    simp [processBatch, List.get?_map]
  · intro b hsome
    cases ho : (processBody url cont b).2 with
    | none =>
      rw [ho] at hsome
      exact absurd hsome (by decide)
    | some e =>
      show (match (processBody url cont b).2 with
        | some e => [e.msg]
        | none => ([] : List String)).length = 1
      rw [ho]
      rfl
  · intro b ho
    show (match (processBody url cont b).2 with
      | some e => [e.msg]
      | none => ([] : List String)) = []
    rw [ho]

/-! ### Aggregation error-handling (claim C8) -/

theorem mapOpt_spec {α β : Type} (fn : α → Option β) : ∀ l : List α,
    (mapOpt fn l = none ∧ ∃ a ∈ l, fn a = none) ∨
    (∃ out, mapOpt fn l = some out ∧ out.length = l.length ∧
      ∀ i : ℕ, i < l.length → ∃ a b, l.get? i = some a ∧ out.get? i = some b ∧
        fn a = some b) := by
  intro l
  induction l with
  | nil => exact Or.inr ⟨[], rfl, rfl, fun i hi => absurd hi (by simp)⟩
  | cons a l ih =>
    cases hfa : fn a with
    | none =>
      left
      constructor
      · conv_lhs => unfold mapOpt
        rw [hfa]
      · exact ⟨a, List.mem_cons_self a l, hfa⟩
    | some b =>
      rcases ih with ⟨hnone, a0, ha0, hfa0⟩ | ⟨out, hout, hlen, hpt⟩
      · left
        constructor
        · conv_lhs => unfold mapOpt
          rw [hfa, hnone]
        · exact ⟨a0, List.mem_cons_of_mem a ha0, hfa0⟩
      · right
        refine ⟨b :: out, ?_, by simp [hlen], ?_⟩
        · conv_lhs => unfold mapOpt
          rw [hfa, hout]
        · intro i hi
          cases i with
          | zero => exact ⟨a, b, rfl, rfl, hfa⟩
          | succ i2 =>
            obtain ⟨a2, b2, h1, h2, h3⟩ := hpt i2 (by simpa using hi)
            exact ⟨a2, b2, h1, h2, h3⟩

theorem featureOf_elim (m : Dict) (fe : Feature) (h : featureOf m = some fe) :
    ∃ props, restoreRecord m = some props ∧ fe.properties = props ∧
      dictGet props "Longitude" = some fe.lon ∧ dictGet props "Latitude" = some fe.lat := by
  unfold featureOf at h
  obtain ⟨props, hp, h⟩ := Option.bind_eq_some.mp h
  obtain ⟨lon, hlon, h⟩ := Option.bind_eq_some.mp h
  obtain ⟨lat, hlat, h⟩ := Option.bind_eq_some.mp h
  cases Option.some.inj h
  exact ⟨props, hp, rfl, hlon, hlat⟩

/-- C8: `create_geojson_from_cardinals` is all-or-nothing: either some record
fails and the whole aggregation yields no collection at all, or every stored
record contributes exactly one feature, in order, whose point geometry is the
restored record's `(Longitude, Latitude)` pair and whose properties are the
full restored record. -/
theorem c8_all_or_nothing (records : List Dict) :
    (create_geojson_from_cardinals records = none ∧
      ∃ r ∈ records, featureOf r = none) ∨
    (∃ feats, create_geojson_from_cardinals records = some feats ∧
      feats.length = records.length ∧
      ∀ i : ℕ, i < records.length →
        ∃ r fe, records.get? i = some r ∧ feats.get? i = some fe ∧
        ∃ props, restoreRecord r = some props ∧ fe.properties = props ∧
          dictGet props "Longitude" = some fe.lon ∧
          dictGet props "Latitude" = some fe.lat) := by
  rcases mapOpt_spec featureOf records with ⟨hnone, r, hr, hfr⟩ | ⟨out, hout, hlen, hpt⟩
  · exact Or.inl ⟨hnone, r, hr, hfr⟩
  · refine Or.inr ⟨out, hout, hlen, ?_⟩
    intro i hi
    obtain ⟨r, fe, h1, h2, h3⟩ := hpt i hi
    obtain ⟨props, hp, hprop, hlon, hlat⟩ := featureOf_elim r fe h3
    exact ⟨r, fe, h1, h2, props, hp, hprop, hlon, hlat⟩

end Photospheres
